import Mathlib

/-!
# Cmm: the sample program `basic_example.c`

A shallow embedding of the two functions of `src/basic_example.c`, `soma` and
`main`, and the properties of their execution.

* `int` values are mathematical integers reduced to 32 bits by `wrap32` after
  every arithmetic operation.
* The variables of `main` are the fields of `MainState`; `c`, which is declared
  without an initial value, is an `Option` that starts as `none`.
* A statement that may end by `break` or `continue` returns a `Signal` next to
  the state it leaves.
* Loops take a fuel argument; a run that uses it up ends in `Err.outOfFuel`.
* The compiler that the program is a test case for is not in the repository; its
  four phases are modelled from the specification and run on the text of the file.
-/

namespace Cmm

/-! ## Machine integers -/

/-- Smallest value of a 32-bit signed `int`. -/
def INT_MIN : Int := -2147483648

/-- Largest value of a 32-bit signed `int`. -/
def INT_MAX : Int := 2147483647

/-- Reduction of a mathematical result to the 32-bit two's-complement range. -/
def wrap32 (n : Int) : Int := (n + 2147483648) % 4294967296 - 2147483648

/-! ## `soma` (lines 12-14) -/

/-- Embedding of `int soma(int x, int y) { return x + y; }`. -/
def soma (x y : Int) : Int := wrap32 (x + y)

/-! ## Results, signals and the variables of `main` -/

/-- Ways a run of the model can fail. -/
inductive Err where
  | outOfFuel
  | uninitRead
  deriving DecidableEq, Repr

deriving instance DecidableEq for Except

/-- How a statement ends: normally, by `break`, or by `continue`. -/
inductive Signal where
  | normal
  | brk
  | cont
  deriving DecidableEq, Repr

/-- The variables `a`, `b` and `c` of `main` (lines 17-19). -/
structure MainState where
  a : Int
  b : Int
  c : Option Int
  deriving DecidableEq, Repr

/-- The variables after `int a = 0; int b = 5; int c;`. -/
def initState : MainState := { a := 0, b := 5, c := none }

/-- A read of `c`; reading it while it is unset is an error. -/
def readC (s : MainState) : Except Err Int :=
  match s.c with
  | some v => .ok v
  | none => .error .uninitRead

/-! ## The `for` loop (lines 21-31) -/

/-- One execution of a `for` body: the value of `i` on entry, how the body
ended, and the variables it left. -/
structure Visit (σ : Type) where
  i : Int
  sig : Signal
  after : σ
  deriving DecidableEq, Repr

/-- Result of one pass of the loop, starting at the evaluation of `i < 10`. -/
inductive Pass (σ : Type) where
  | done (i : Int) (s : σ)
  | broke (i : Int) (s : σ)
  | next (i : Int) (s : σ)
  deriving DecidableEq, Repr

/-- The state in which a `for` loop ends. -/
structure ForEnd (σ : Type) where
  i : Int
  st : σ
  byBreak : Bool
  visits : List (Visit σ)
  deriving DecidableEq, Repr

/-- The condition `i < 10` of the header. -/
def forCond (i : Int) : Bool := decide (i < 10)

/-- The step `i = i + 1` of the header. -/
def forStep (i : Int) : Int := wrap32 (i + 1)

/-- One pass of `for (...; i < 10; i = i + 1) body`: the condition is evaluated;
when it holds the body runs; `break` leaves the loop at once, while a body that
ends normally or by `continue` is followed by the step. -/
def forPass {σ : Type} (body : Int → σ → Signal × Int × σ) (i : Int) (s : σ) : Pass σ :=
  if forCond i then
    match body i s with
    | (Signal.brk, i', s') => Pass.broke i' s'
    | (_, i', s') => Pass.next (forStep i') s'
  else Pass.done i s

/-- Passes of the loop are repeated until the condition fails or the body
breaks; `vs` collects the executions of the body so far. -/
def forLoop {σ : Type} (body : Int → σ → Signal × Int × σ) :
    Nat → Int → σ → List (Visit σ) → Except Err (ForEnd σ)
  | 0, _, _, _ => .error .outOfFuel
  | fuel + 1, i, s, vs =>
    match forPass body i s with
    | Pass.done i' s' => .ok ⟨i', s', false, vs⟩
    | Pass.broke i' s' => .ok ⟨i', s', true, vs ++ [⟨i, (body i s).1, (body i s).2.2⟩]⟩
    | Pass.next i' s' => forLoop body fuel i' s' (vs ++ [⟨i, (body i s).1, (body i s).2.2⟩])

/-- The statement `for (int i = 0; i < 10; i = i + 1) body`. -/
def forStmt {σ : Type} (body : Int → σ → Signal × Int × σ) (fuel : Nat) (s : σ) :
    Except Err (ForEnd σ) :=
  forLoop body fuel 0 s []

/-- The body of the loop of `main` (lines 22-30); `%` of C truncates. -/
def forBody (i : Int) (s : MainState) : Signal × Int × MainState :=
  if Int.tmod i 2 == 0 then (Signal.cont, i, s)
  else if i == 7 then (Signal.brk, i, s)
  else (Signal.normal, i, { s with a := wrap32 (s.a + i) })

/-! ## The `while` loop (lines 33-35) -/

/-- The state in which a `while` loop ends and the number of times its body ran. -/
structure WhileEnd (σ : Type) where
  st : σ
  runs : Nat
  deriving DecidableEq, Repr

/-- The loop `while (cond) body`; `n` counts the executions of the body so far. -/
def whileLoop {σ : Type} (cond : σ → Bool) (body : σ → Signal × σ) :
    Nat → σ → Nat → Except Err (WhileEnd σ)
  | 0, _, _ => .error .outOfFuel
  | fuel + 1, s, n =>
    if cond s then
      match body s with
      | (Signal.brk, s') => .ok ⟨s', n + 1⟩
      | (_, s') => whileLoop cond body fuel s' (n + 1)
    else .ok ⟨s, n⟩

/-- The condition `a < 30`. -/
def whileCond (s : MainState) : Bool := decide (s.a < 30)

/-- The body `a = a + 1;`. -/
def whileBody (s : MainState) : Signal × MainState :=
  (Signal.normal, { s with a := wrap32 (s.a + 1) })

/-- The statement `while (a < 30) { a = a + 1; }`. -/
def whileStmt (fuel : Nat) (s : MainState) : Except Err (WhileEnd MainState) :=
  whileLoop whileCond whileBody fuel s 0

/-! ## The `if`/`else` (lines 37-41) -/

/-- The condition `a > b && b < 10`; `b < 10` is evaluated only when `a > b`. -/
def ifCond (s : MainState) : Bool :=
  if s.a > s.b then decide (s.b < 10) else false

/-- The statement `if (a > b && b < 10) { c = soma(a, b); } else { c = a - b; }`. -/
def ifElse (s : MainState) : MainState :=
  if ifCond s then { s with c := some (soma s.a s.b) }
  else { s with c := some (wrap32 (s.a - s.b)) }

/-! ## The `switch` (lines 43-52) -/

/-- A label of a `switch` with the statements that follow it up to the next
label: `some k` is `case k:` and `none` is `default:`. -/
structure Arm (σ : Type) where
  label : Option Int
  body : σ → Except Err (Signal × σ)

/-- The arms from the first `case v:` on, when there is one. -/
def armsFrom {σ : Type} (v : Int) : List (Arm σ) → Option (List (Arm σ))
  | [] => none
  | arm :: rest => if arm.label = some v then some (arm :: rest) else armsFrom v rest

/-- The arms from `default:` on; none when the switch has no `default`. -/
def armsFromDefault {σ : Type} : List (Arm σ) → List (Arm σ)
  | [] => []
  | arm :: rest => if arm.label = none then arm :: rest else armsFromDefault rest

/-- The arms that a switch on the value `v` starts at. -/
def selectArms {σ : Type} (v : Int) (arms : List (Arm σ)) : List (Arm σ) :=
  match armsFrom v arms with
  | some l => l
  | none => armsFromDefault arms

/-- Fall-through execution: the bodies run top to bottom until one of them ends
by `break` (or `continue`). -/
def runArms {σ : Type} : List (Arm σ) → σ → Except Err (Signal × σ)
  | [], s => .ok (Signal.normal, s)
  | arm :: rest, s =>
    match arm.body s with
    | .error e => .error e
    | .ok (Signal.normal, s') => runArms rest s'
    | .ok (sig, s') => .ok (sig, s')

/-- Break-by-default execution, the alternative that the specification rules
out: the body of the selected arm runs and the switch ends. -/
def runArmsBreakByDefault {σ : Type} : List (Arm σ) → σ → Except Err (Signal × σ)
  | [], s => .ok (Signal.normal, s)
  | arm :: _, s => arm.body s

/-- The two readings of a `switch` body that are compared. -/
inductive SwitchMode where
  | fallThrough
  | breakByDefault
  deriving DecidableEq, Repr

/-- A `switch` on the value `v`: a `break` of a body ends the switch and goes
no further. -/
def execSwitch {σ : Type} (mode : SwitchMode) (v : Int) (arms : List (Arm σ)) (s : σ) :
    Except Err (Signal × σ) :=
  let run := match mode with
    | SwitchMode.fallThrough => runArms (selectArms v arms) s
    | SwitchMode.breakByDefault => runArmsBreakByDefault (selectArms v arms) s
  match run with
  | .error e => .error e
  | .ok (Signal.brk, s') => .ok (Signal.normal, s')
  | .ok (sig, s') => .ok (sig, s')

/-- The statements `c = c + 10; break;` under `case 5:`. -/
def case5Body (s : MainState) : Except Err (Signal × MainState) :=
  match readC s with
  | .error e => .error e
  | .ok c => .ok (Signal.brk, { s with c := some (wrap32 (c + 10)) })

/-- The statements `c = c + 20; break;` under `case 10:`. -/
def case10Body (s : MainState) : Except Err (Signal × MainState) :=
  match readC s with
  | .error e => .error e
  | .ok c => .ok (Signal.brk, { s with c := some (wrap32 (c + 20)) })

/-- The statement `c = 0;` under `default:`. -/
def defaultBody (s : MainState) : Except Err (Signal × MainState) :=
  .ok (Signal.normal, { s with c := some 0 })

/-- The arms of the switch of `main`, in source order. -/
def switchArms : List (Arm MainState) :=
  [⟨some 5, case5Body⟩, ⟨some 10, case10Body⟩, ⟨none, defaultBody⟩]

/-- The statement `switch (c) { ... }` of `main` under either reading. -/
def switchWith (mode : SwitchMode) (s : MainState) : Except Err MainState :=
  match readC s with
  | .error e => .error e
  | .ok v =>
    match execSwitch mode v switchArms s with
    | .error e => .error e
    | .ok (_, s') => .ok s'

/-- The switch of `main` as C executes it, with fall-through. -/
def switchStmt (s : MainState) : Except Err MainState :=
  switchWith SwitchMode.fallThrough s

/-! ## `main` (lines 16-55) -/

/-- The function `main` with the switch under either reading. -/
def mainWith (mode : SwitchMode) (fuel : Nat) : Except Err Int :=
  match forStmt forBody fuel initState with
  | .error e => .error e
  | .ok f =>
    match whileStmt fuel f.st with
    | .error e => .error e
    | .ok w =>
      match switchWith mode (ifElse w.st) with
      | .error e => .error e
      | .ok s => readC s

/-- Embedding of `int main()`. -/
def main (fuel : Nat) : Except Err Int :=
  mainWith SwitchMode.fallThrough fuel

/-- The body of the loop of `main` with its `break` statement (lines 26-28)
taken out: a body that never breaks, used to run the header on its own. -/
def forBodyNoBreak (i : Int) (s : MainState) : Signal × Int × MainState :=
  if Int.tmod i 2 == 0 then (Signal.cont, i, s)
  else (Signal.normal, i, { s with a := wrap32 (s.a + i) })

/-! ## The condition of the `if`/`else` without short circuit -/

/-- The condition `a > b && b < 10` read without short circuit: both operands are
evaluated and their values combined. It is compared with `ifCond`. -/
def ifCondBoth (s : MainState) : Bool :=
  let l := decide (s.a > s.b)
  let r := decide (s.b < 10)
  l && r

/-! ## The loops of `main` as total functions -/

/-- The `for` loop of `main` from the evaluation of `i < 10` on, without fuel: the
value of `i`, the variables and whether the loop ended by `break`. The recursion is
on the measure `10 - i`, which every pass that runs the step decreases. -/
def forLoopTotal (i : Int) (s : MainState) : Int × MainState × Bool :=
  match _h : forPass forBody i s with
  | Pass.done i' s' => (i', s', false)
  | Pass.broke i' s' => (i', s', true)
  | Pass.next i' s' => forLoopTotal i' s'
termination_by (10 - i).toNat
decreasing_by
  have hbi : (forBody i s).2.1 = i := by
    unfold forBody
    split
    · rfl
    · split <;> rfl
  have h := _h
  unfold forPass at h
  by_cases hc : forCond i = true
  · rw [if_pos hc] at h
    have hlt : i < 10 := by simpa [forCond] using hc
    have hi : i' = wrap32 (i + 1) := by
      rcases hb : forBody i s with ⟨sig, j, t⟩
      rw [hb] at h hbi
      simp only at hbi
      subst hbi
      cases sig <;> simp_all [forStep]
    rw [hi]
    unfold wrap32
    omega
  · rw [if_neg hc] at h
    cases h

/-- The `while` loop of `main` without fuel: the variables it leaves. The recursion
is on the measure `30 - a`, which every execution of the body decreases. -/
def whileLoopTotal (s : MainState) : MainState :=
  if _h : whileCond s = true then
    if (whileBody s).1 = Signal.brk then (whileBody s).2
    else whileLoopTotal (whileBody s).2
  else s
termination_by (30 - s.a).toNat
decreasing_by
  have hlt : s.a < 30 := by simpa [whileCond] using _h
  simp only [whileBody]
  unfold wrap32
  omega

/-- Embedding of `int main()` without fuel, on the total loops. -/
def mainTotal : Except Err Int :=
  match switchStmt (ifElse (whileLoopTotal (forLoopTotal 0 initState).2.1)) with
  | .error e => .error e
  | .ok s => readC s

/-! ## `main` with a record of its arithmetic and of its stores -/

/-- The operators of the program that compute a number. -/
inductive ArithOp where
  | add
  | sub
  | mod
  deriving DecidableEq, Repr

/-- The variables of the program: `a`, `b`, `c` and `i` of `main`, and the
parameters `x` and `y` of `soma`. -/
inductive Var where
  | a | b | c | i | x | y
  deriving DecidableEq, Repr

/-- What is recorded of a run: an operation with its operands and its
mathematical result, before the reduction to 32 bits, or a store of a value in a
variable, by initialisation, assignment or parameter passing, with the variables of
`main` as they are after it. -/
inductive Event where
  | arith (op : ArithOp) (lhs rhs result : Int)
  | store (var : Var) (value : Int) (vars : MainState)
  deriving DecidableEq, Repr

/-- The number that an event produces: the result of the operation or the value
stored. -/
def Event.value : Event → Int
  | .arith _ _ _ result => result
  | .store _ value _ => value

/-- Whether an event is a `%` operation. -/
def Event.isMod : Event → Bool
  | .arith ArithOp.mod _ _ _ => true
  | _ => false

/-- Whether an event is a store to the variable `v`. -/
def Event.isStoreTo (v : Var) : Event → Bool
  | .store var _ _ => decide (var = v)
  | _ => false

/-- Whether an event is in order: its number lies in `[lo, hi]`, a `%` has the
divisor 2 and a dividend that is not negative, and a store leaves `b = 5`. -/
def Event.inOrder (lo hi : Int) : Event → Bool
  | .arith op lhs rhs result =>
    decide (lo ≤ result) && decide (result ≤ hi)
      && (if op = ArithOp.mod then decide (rhs = 2) && decide (0 ≤ lhs) else true)
  | .store _ value vars => decide (lo ≤ value) && decide (value ≤ hi) && decide (vars.b = 5)

/-- The variables of `main` with the record of the run so far. -/
structure Traced where
  st : MainState
  log : List Event
  deriving DecidableEq, Repr

/-- The body of the `for` loop (lines 22-30) with its record: `i % 2` in every
execution, and `a + i` and the store to `a` when the assignment is reached. -/
def forBodyT (i : Int) (t : Traced) : Signal × Int × Traced :=
  if Int.tmod i 2 == 0 then
    (Signal.cont, i, ⟨t.st, t.log ++ [.arith .mod i 2 (Int.tmod i 2)]⟩)
  else if i == 7 then
    (Signal.brk, i, ⟨t.st, t.log ++ [.arith .mod i 2 (Int.tmod i 2)]⟩)
  else
    (Signal.normal, i,
      ⟨{ t.st with a := wrap32 (t.st.a + i) },
       t.log ++ [.arith .mod i 2 (Int.tmod i 2), .arith .add t.st.a i (t.st.a + i),
         .store .a (wrap32 (t.st.a + i)) { t.st with a := wrap32 (t.st.a + i) }]⟩)

/-- The `for` loop of `main` from the evaluation of `i < 10` on, with its record:
the step adds `i + 1` and the store to `i`. -/
def forLoopT : Nat → Int → Traced → Except Err (Int × Traced)
  | 0, _, _ => .error .outOfFuel
  | fuel + 1, i, t =>
    if forCond i then
      match forBodyT i t with
      | (Signal.brk, i', t') => .ok (i', t')
      | (_, i', t') =>
        forLoopT fuel (forStep i')
          ⟨t'.st, t'.log ++ [.arith .add i' 1 (i' + 1), .store .i (forStep i') t'.st]⟩
    else .ok (i, t)

/-- The statement `for (int i = 0; i < 10; i = i + 1) { ... }` with its record,
which starts with the store of 0 to `i`. -/
def forStmtT (fuel : Nat) (t : Traced) : Except Err (Int × Traced) :=
  forLoopT fuel 0 ⟨t.st, t.log ++ [.store .i 0 t.st]⟩

/-- The body `a = a + 1;` of the `while` loop with its record. -/
def whileBodyT (t : Traced) : Signal × Traced :=
  (Signal.normal,
    ⟨{ t.st with a := wrap32 (t.st.a + 1) },
     t.log ++ [.arith .add t.st.a 1 (t.st.a + 1),
       .store .a (wrap32 (t.st.a + 1)) { t.st with a := wrap32 (t.st.a + 1) }]⟩)

/-- The statement `while (a < 30) { a = a + 1; }` with its record. -/
def whileStmtT (fuel : Nat) (t : Traced) : Except Err (WhileEnd Traced) :=
  whileLoop (fun u => whileCond u.st) whileBodyT fuel t 0

/-- A call of `soma` with its record: the arguments are stored in the parameters
`x` and `y`, which are variables of `soma`, and `x + y` is computed. -/
def somaT (x y : Int) (t : Traced) : Int × Traced :=
  (soma x y, ⟨t.st, t.log ++ [.store .x x t.st, .store .y y t.st, .arith .add x y (x + y)]⟩)

/-- The `if`/`else` of `main` with its record. -/
def ifElseT (t : Traced) : Traced :=
  if ifCond t.st then
    ⟨{ t.st with c := some (somaT t.st.a t.st.b t).1 },
     (somaT t.st.a t.st.b t).2.log
       ++ [.store .c (somaT t.st.a t.st.b t).1 { t.st with c := some (somaT t.st.a t.st.b t).1 }]⟩
  else
    ⟨{ t.st with c := some (wrap32 (t.st.a - t.st.b)) },
     t.log ++ [.arith .sub t.st.a t.st.b (t.st.a - t.st.b),
       .store .c (wrap32 (t.st.a - t.st.b)) { t.st with c := some (wrap32 (t.st.a - t.st.b)) }]⟩

/-- The statements `c = c + 10; break;` under `case 5:` with their record. -/
def case5BodyT (t : Traced) : Except Err (Signal × Traced) :=
  match readC t.st with
  | .error e => .error e
  | .ok c =>
    .ok (Signal.brk,
      ⟨{ t.st with c := some (wrap32 (c + 10)) },
       t.log ++ [.arith .add c 10 (c + 10),
         .store .c (wrap32 (c + 10)) { t.st with c := some (wrap32 (c + 10)) }]⟩)

/-- The statements `c = c + 20; break;` under `case 10:` with their record. -/
def case10BodyT (t : Traced) : Except Err (Signal × Traced) :=
  match readC t.st with
  | .error e => .error e
  | .ok c =>
    .ok (Signal.brk,
      ⟨{ t.st with c := some (wrap32 (c + 20)) },
       t.log ++ [.arith .add c 20 (c + 20),
         .store .c (wrap32 (c + 20)) { t.st with c := some (wrap32 (c + 20)) }]⟩)

/-- The statement `c = 0;` under `default:` with its record. -/
def defaultBodyT (t : Traced) : Except Err (Signal × Traced) :=
  .ok (Signal.normal,
    ⟨{ t.st with c := some 0 }, t.log ++ [.store .c 0 { t.st with c := some 0 }]⟩)

/-- The arms of the switch of `main` with their record, in source order. -/
def switchArmsT : List (Arm Traced) :=
  [⟨some 5, case5BodyT⟩, ⟨some 10, case10BodyT⟩, ⟨none, defaultBodyT⟩]

/-- The switch of `main`, with fall-through, with its record. -/
def switchStmtT (t : Traced) : Except Err Traced :=
  match readC t.st with
  | .error e => .error e
  | .ok v =>
    match execSwitch SwitchMode.fallThrough v switchArmsT t with
    | .error e => .error e
    | .ok (_, t') => .ok t'

/-- Embedding of `int main()` with the record of the run: the value returned and
all events in the order of execution. The record starts with the stores of the
initialisations `int a = 0;` and `int b = 5;`, both shown with the variables as
they are once the declarations are done. -/
def mainTraced (fuel : Nat) : Except Err (Int × List Event) :=
  match forStmtT fuel ⟨initState, [.store .a 0 initState, .store .b 5 initState]⟩ with
  | .error e => .error e
  | .ok f =>
    match whileStmtT fuel f.2 with
    | .error e => .error e
    | .ok w =>
      match switchStmtT (ifElseT w.st) with
      | .error e => .error e
      | .ok t =>
        match readC t.st with
        | .error e => .error e
        | .ok v => .ok (v, t.log)

/-! ## The compiler pipeline

The repository holds the fixture only; the four phases that its header comment
names are modelled from the specification (sections 3, 4 and 6). -/

/-- Modelled from the spec: the kinds of token of section 3 (the lexer is not in
the repository). -/
inductive TokenKind where
  | keyword
  | identifier
  | intLiteral
  | operator
  | punctuation
  | endOfInput
  deriving DecidableEq, Repr

/-- Modelled from the spec: a source position, line and column counted from 1. -/
structure Pos where
  line : Nat
  col : Nat
  deriving DecidableEq, Repr

/-- Modelled from the spec: a token of section 3, with its kind, lexeme text and
source position. -/
structure Token where
  kind : TokenKind
  lexeme : String
  pos : Pos
  deriving DecidableEq, Repr

/-- Modelled from the spec: the typed errors of section 6, each with a message or
the offending item and a source position, and `InternalError` for the unconditional
abort of section 7 (also raised when a phase of the model uses up its fuel). -/
inductive CompileError where
  | LexError (c : Char) (pos : Pos)
  | ParseError (expected : String) (found : Token)
  | DuplicateDeclarationError (name : String) (pos : Pos)
  | UndeclaredError (name : String) (pos : Pos)
  | TypeError (msg : String) (pos : Pos)
  | ControlFlowError (msg : String) (pos : Pos)
  | InternalError (msg : String)
  deriving DecidableEq, Repr

/-- Modelled from the spec: the keywords of section 4.1. -/
def keywords : List String :=
  ["int", "if", "else", "while", "for", "switch", "case", "default", "break", "continue",
   "return"]

/-- Modelled from the spec: the first character of an identifier, a letter or an
underscore (section 4.1). -/
def isIdentStart (c : Char) : Bool := c.isAlpha || c == '_'

/-- Modelled from the spec: a later character of an identifier, a letter, a digit
or an underscore (section 4.1). -/
def isIdentPart (c : Char) : Bool := c.isAlphanum || c == '_'

/-- Modelled from the spec: the one-character operators of section 4.1. -/
def operatorChars : List Char := ['+', '-', '*', '/', '%', '=', '<', '>', '!']

/-- Modelled from the spec: the punctuation of section 4.1. -/
def punctuationChars : List Char := ['(', ')', '\x7b', '\x7d', '[', ']', ';', ',', ':']

/-- Modelled from the spec: the two-character operators of section 4.1. -/
def twoCharOperator (c d : Char) : Bool :=
  (c == '=' && d == '=') || (c == '!' && d == '=') || (c == '<' && d == '=')
    || (c == '>' && d == '=') || (c == '&' && d == '&') || (c == '|' && d == '|')

/-- Modelled from the spec: the position after the character `c`. -/
def Pos.advance (p : Pos) (c : Char) : Pos :=
  if c == '\n' then ⟨p.line + 1, 1⟩ else ⟨p.line, p.col + 1⟩

/-- Modelled from the spec: the longest prefix of characters that satisfy `p`,
with the rest of the input. -/
def spanChars (p : Char → Bool) : List Char → List Char × List Char
  | [] => ([], [])
  | c :: cs =>
    if p c then ((spanChars p cs).1.cons c, (spanChars p cs).2) else ([], c :: cs)

/-- Modelled from the spec: the input after a `//` comment, which ends before the
end of its line. -/
def skipLineComment : List Char → Pos → List Char × Pos
  | [], p => ([], p)
  | c :: cs, p => if c == '\n' then (c :: cs, p) else skipLineComment cs (p.advance c)

/-- Modelled from the spec: the input after a block comment, which ends after the
first `*/`. The specification does not say what an unterminated comment is; here
it runs to the end of the input. -/
def skipBlockComment : List Char → Pos → List Char × Pos
  | [], p => ([], p)
  | [c], p => ([], p.advance c)
  | c :: d :: cs, p =>
    if c == '*' && d == '/' then (cs, (p.advance c).advance d)
    else skipBlockComment (d :: cs) (p.advance c)

/-- Modelled from the spec: the lexer of section 4.1 on the characters that are
left, at position `p`. Whitespace and comments are skipped, the longest digit
sequence is an integer literal, the longest identifier is a keyword when it is in
`keywords`, two-character operators are tried before one-character ones, and any
other character is a `LexError`. The token sequence ends in one end-of-input token.
Every step takes at least one character, so fuel above the length of the input is
enough. -/
def lexFrom : Nat → List Char → Pos → Except CompileError (List Token)
  | 0, _, _ => .error (.InternalError "lexer out of fuel")
  | _ + 1, [], p => .ok [⟨.endOfInput, "", p⟩]
  | fuel + 1, c :: cs, p =>
    if c.isWhitespace then lexFrom fuel cs (p.advance c)
    else if c == '/' && cs.head? == some '/' then
      lexFrom fuel (skipLineComment cs (p.advance c)).1 (skipLineComment cs (p.advance c)).2
    else if c == '/' && cs.head? == some '*' then
      lexFrom fuel (skipBlockComment cs.tail ((p.advance c).advance '*')).1
        (skipBlockComment cs.tail ((p.advance c).advance '*')).2
    else if c.isDigit then
      let digits := c :: (spanChars Char.isDigit cs).1
      match lexFrom fuel (spanChars Char.isDigit cs).2 ⟨p.line, p.col + digits.length⟩ with
      | .error e => .error e
      | .ok ts => .ok (⟨.intLiteral, String.mk digits, p⟩ :: ts)
    else if isIdentStart c then
      let word := String.mk (c :: (spanChars isIdentPart cs).1)
      match lexFrom fuel (spanChars isIdentPart cs).2 ⟨p.line, p.col + word.length⟩ with
      | .error e => .error e
      | .ok ts =>
        .ok (⟨if keywords.contains word then .keyword else .identifier, word, p⟩ :: ts)
    else
      match cs with
      | d :: rest =>
        if twoCharOperator c d then
          match lexFrom fuel rest ⟨p.line, p.col + 2⟩ with
          | .error e => .error e
          | .ok ts => .ok (⟨.operator, String.mk [c, d], p⟩ :: ts)
        else if operatorChars.contains c then
          match lexFrom fuel cs ⟨p.line, p.col + 1⟩ with
          | .error e => .error e
          | .ok ts => .ok (⟨.operator, String.mk [c], p⟩ :: ts)
        else if punctuationChars.contains c then
          match lexFrom fuel cs ⟨p.line, p.col + 1⟩ with
          | .error e => .error e
          | .ok ts => .ok (⟨.punctuation, String.mk [c], p⟩ :: ts)
        else .error (.LexError c p)
      | [] =>
        if operatorChars.contains c then .ok [⟨.operator, String.mk [c], p⟩,
          ⟨.endOfInput, "", ⟨p.line, p.col + 1⟩⟩]
        else if punctuationChars.contains c then .ok [⟨.punctuation, String.mk [c], p⟩,
          ⟨.endOfInput, "", ⟨p.line, p.col + 1⟩⟩]
        else .error (.LexError c p)

/-- Modelled from the spec: the lexer of section 4.1, which is not in the
repository, from raw source text to the token sequence. -/
def lex (source : String) : Except CompileError (List Token) :=
  lexFrom (source.length + 1) source.data ⟨1, 1⟩

/-! ### The abstract syntax tree -/

/-- Modelled from the spec: the binary operators, by the precedence levels of
section 4.2. -/
inductive BinOp where
  | or | and | eq | ne | lt | gt | le | ge | add | sub | mul | div | mod
  deriving DecidableEq, Repr

/-- Modelled from the spec: the unary operators `!` and `-` of section 4.2. -/
inductive UnOp where
  | not | neg
  deriving DecidableEq, Repr

/-- Modelled from the spec: the single concrete type of the subset (section 4.3). -/
inductive Ty where
  | int
  deriving DecidableEq, Repr

/-- Modelled from the spec: the two kinds of symbol of section 3. -/
inductive SymbolKind where
  | variable
  | function
  deriving DecidableEq, Repr

/-- Modelled from the spec: the storage slot of a symbol, a stack offset for a
variable and a label for a function (section 3). -/
inductive Storage where
  | stackOffset (offset : Nat)
  | label (name : String)
  deriving DecidableEq, Repr

/-- Modelled from the spec: a symbol of section 3. -/
structure Symbol where
  name : String
  kind : SymbolKind
  ty : Ty
  depth : Nat
  storage : Storage
  deriving DecidableEq, Repr

/-- Modelled from the spec: the expression nodes of section 3. `resolvedType` and
`resolvedSymbol` are unset after parsing and set by semantic analysis. -/
inductive Expr where
  | IntLiteral (value : Nat) (resolvedType : Option Ty)
  | Identifier (name : String) (pos : Pos) (resolvedType : Option Ty)
      (resolvedSymbol : Option Symbol)
  | BinaryExpr (op : BinOp) (lhs rhs : Expr) (resolvedType : Option Ty)
  | UnaryExpr (op : UnOp) (operand : Expr) (resolvedType : Option Ty)
  | Assign (target : String) (pos : Pos) (value : Expr) (resolvedType : Option Ty)
      (resolvedSymbol : Option Symbol)
  | Call (callee : String) (pos : Pos) (args : List Expr) (resolvedType : Option Ty)
      (resolvedSymbol : Option Symbol)
  deriving Repr

/-- Modelled from the spec: the statement nodes of section 3. A `Switch` holds its
`Case` nodes in source order; the label of a `Case` is `none` for `default:`. -/
inductive Stmt where
  | VarDecl (name : String) (pos : Pos) (init : Option Expr) (resolvedSymbol : Option Symbol)
  | Block (body : List Stmt)
  | If (cond : Expr) (thenBranch : Stmt) (elseBranch : Option Stmt)
  | While (cond : Expr) (body : Stmt)
  | For (init : Option Stmt) (cond : Option Expr) (step : Option Expr) (body : Stmt)
  | Switch (scrutinee : Expr) (cases : List Stmt)
  | Case (label : Option Nat) (body : List Stmt)
  | Break (pos : Pos)
  | Continue (pos : Pos)
  | Return (pos : Pos) (value : Option Expr)
  | ExprStmt (e : Expr)
  deriving Repr

/-- Modelled from the spec: a parameter of a function, an integer variable. -/
structure Param where
  name : String
  pos : Pos
  resolvedSymbol : Option Symbol
  deriving Repr

/-- Modelled from the spec: the `FunctionDecl` node of section 3; the return type
and the parameter types are all `int`. -/
structure FunctionDecl where
  name : String
  pos : Pos
  params : List Param
  body : List Stmt
  deriving Repr

/-- Modelled from the spec: the `Program` node of section 3. -/
structure Program where
  functions : List FunctionDecl
  deriving Repr

/-! ### The parser -/

/-- Modelled from the spec: the token that the parser looks at, the one token of
lookahead of section 4.2. -/
def peek : List Token → Token
  | [] => ⟨.endOfInput, "", ⟨0, 0⟩⟩
  | t :: _ => t

/-- Modelled from the spec: whether the next token has this kind and lexeme. -/
def nextIs (kind : TokenKind) (lexeme : String) (toks : List Token) : Bool :=
  (peek toks).kind == kind && (peek toks).lexeme == lexeme

/-- Modelled from the spec: the token with this kind and lexeme is consumed, or a
`ParseError` tells what was expected and what was found (section 4.2). -/
def expect (kind : TokenKind) (lexeme : String) (toks : List Token) :
    Except CompileError (List Token) :=
  if nextIs kind lexeme toks then .ok toks.tail else .error (.ParseError lexeme (peek toks))

/-- Modelled from the spec: an identifier token is consumed. -/
def expectIdentifier (toks : List Token) : Except CompileError (Token × List Token) :=
  if (peek toks).kind == .identifier then .ok (peek toks, toks.tail)
  else .error (.ParseError "identifier" (peek toks))

/-- Modelled from the spec: the value of a decimal digit sequence. -/
def digitsToNat (digits : List Char) : Nat :=
  digits.foldl (fun n c => 10 * n + (c.toNat - '0'.toNat)) 0

/-- Modelled from the spec: the binary operator that a token is at a precedence
level of section 4.2, from `||` (level 0, lowest) to `* / %` (level 5). -/
def binOpAt (level : Nat) (t : Token) : Option BinOp :=
  if t.kind != .operator then none
  else match level, t.lexeme with
    | 0, "||" => some .or
    | 1, "&&" => some .and
    | 2, "==" => some .eq
    | 2, "!=" => some .ne
    | 3, "<" => some .lt
    | 3, ">" => some .gt
    | 3, "<=" => some .le
    | 3, ">=" => some .ge
    | 4, "+" => some .add
    | 4, "-" => some .sub
    | 5, "*" => some .mul
    | 5, "/" => some .div
    | 5, "%" => some .mod
    | _, _ => none

mutual

/-- Modelled from the spec: an expression. The levels of section 4.2 are parsed
from `||` down; an `=` after an identifier makes an `Assign`, whose value is an
expression again. -/
def parseExpr : Nat → List Token → Except CompileError (Expr × List Token)
  | 0, _ => .error (.InternalError "parser out of fuel")
  | fuel + 1, toks => do
    let (lhs, rest) ← parseBinary fuel 0 toks
    if nextIs .operator "=" rest then
      match lhs with
      | .Identifier name pos _ _ =>
        let (value, rest') ← parseExpr fuel rest.tail
        pure (.Assign name pos value none none, rest')
      | _ => .error (.ParseError "assignment target" (peek rest))
    else pure (lhs, rest)

/-- Modelled from the spec: the operands and operators of one precedence level,
left-associative; above level 5 come the unary operators. -/
def parseBinary : Nat → Nat → List Token → Except CompileError (Expr × List Token)
  | 0, _, _ => .error (.InternalError "parser out of fuel")
  | fuel + 1, level, toks =>
    if level ≥ 6 then parseUnary fuel toks
    else do
      let (lhs, rest) ← parseBinary fuel (level + 1) toks
      parseBinaryRest fuel level lhs rest

/-- Modelled from the spec: the operators of one level that follow the operand
`lhs`, each with its right operand. -/
def parseBinaryRest : Nat → Nat → Expr → List Token → Except CompileError (Expr × List Token)
  | 0, _, _, _ => .error (.InternalError "parser out of fuel")
  | fuel + 1, level, lhs, toks =>
    match binOpAt level (peek toks) with
    | some op => do
      let (rhs, rest) ← parseBinary fuel (level + 1) toks.tail
      parseBinaryRest fuel level (.BinaryExpr op lhs rhs none) rest
    | none => pure (lhs, toks)

/-- Modelled from the spec: the unary operators `!` and `-`, right-associative. -/
def parseUnary : Nat → List Token → Except CompileError (Expr × List Token)
  | 0, _ => .error (.InternalError "parser out of fuel")
  | fuel + 1, toks =>
    if nextIs .operator "!" toks then do
      let (operand, rest) ← parseUnary fuel toks.tail
      pure (.UnaryExpr .not operand none, rest)
    else if nextIs .operator "-" toks then do
      let (operand, rest) ← parseUnary fuel toks.tail
      pure (.UnaryExpr .neg operand none, rest)
    else parsePrimary fuel toks

/-- Modelled from the spec: a literal, an identifier, a call or a parenthesized
expression. -/
def parsePrimary : Nat → List Token → Except CompileError (Expr × List Token)
  | 0, _ => .error (.InternalError "parser out of fuel")
  | fuel + 1, toks =>
    let t := peek toks
    if t.kind == .intLiteral then pure (.IntLiteral (digitsToNat t.lexeme.data) none, toks.tail)
    else if t.kind == .identifier then
      if nextIs .punctuation "(" toks.tail then do
        let (args, rest) ← parseArgs fuel toks.tail.tail
        pure (.Call t.lexeme t.pos args none none, rest)
      else pure (.Identifier t.lexeme t.pos none none, toks.tail)
    else if nextIs .punctuation "(" toks then do
      let (e, rest) ← parseExpr fuel toks.tail
      let rest' ← expect .punctuation ")" rest
      pure (e, rest')
    else .error (.ParseError "expression" t)

/-- Modelled from the spec: the arguments of a call after its `(`, up to and
with the `)`. -/
def parseArgs : Nat → List Token → Except CompileError (List Expr × List Token)
  | 0, _ => .error (.InternalError "parser out of fuel")
  | fuel + 1, toks =>
    if nextIs .punctuation ")" toks then pure ([], toks.tail)
    else do
      let (arg, rest) ← parseExpr fuel toks
      if nextIs .punctuation "," rest then do
        let (args, rest') ← parseArgsMore fuel rest.tail
        pure (arg :: args, rest')
      else do
        let rest' ← expect .punctuation ")" rest
        pure ([arg], rest')

/-- Modelled from the spec: the arguments after a `,`, at least one. -/
def parseArgsMore : Nat → List Token → Except CompileError (List Expr × List Token)
  | 0, _ => .error (.InternalError "parser out of fuel")
  | fuel + 1, toks => do
    let (arg, rest) ← parseExpr fuel toks
    if nextIs .punctuation "," rest then do
      let (args, rest') ← parseArgsMore fuel rest.tail
      pure (arg :: args, rest')
    else do
      let rest' ← expect .punctuation ")" rest
      pure ([arg], rest')

end

/-- Modelled from the spec: a declaration `int name` with an optional `= expr`,
without the `;` that ends it as a statement or as a clause of a `for` header. -/
def parseVarDecl (fuel : Nat) (toks : List Token) : Except CompileError (Stmt × List Token) := do
  let rest ← expect .keyword "int" toks
  let (name, rest) ← expectIdentifier rest
  if nextIs .operator "=" rest then do
    let (init, rest') ← parseExpr fuel rest.tail
    pure (.VarDecl name.lexeme name.pos (some init) none, rest')
  else pure (.VarDecl name.lexeme name.pos none none, rest)

/-- Modelled from the spec: whether the next token ends the statement list of a
`case` or `default` label. -/
def endsCaseBody (toks : List Token) : Bool :=
  nextIs .keyword "case" toks || nextIs .keyword "default" toks
    || nextIs .punctuation "\x7d" toks || (peek toks).kind == .endOfInput

mutual

/-- Modelled from the spec: one statement of the subset (sections 1 and 4.2). -/
def parseStmt : Nat → List Token → Except CompileError (Stmt × List Token)
  | 0, _ => .error (.InternalError "parser out of fuel")
  | fuel + 1, toks =>
    if nextIs .keyword "int" toks then do
      let (decl, rest) ← parseVarDecl fuel toks
      let rest' ← expect .punctuation ";" rest
      pure (decl, rest')
    else if nextIs .punctuation "\x7b" toks then do
      let (body, rest) ← parseBlock fuel toks
      pure (.Block body, rest)
    else if nextIs .keyword "if" toks then do
      let rest ← expect .punctuation "(" toks.tail
      let (cond, rest) ← parseExpr fuel rest
      let rest ← expect .punctuation ")" rest
      let (thenBranch, rest) ← parseStmt fuel rest
      if nextIs .keyword "else" rest then do
        let (elseBranch, rest') ← parseStmt fuel rest.tail
        pure (.If cond thenBranch (some elseBranch), rest')
      else pure (.If cond thenBranch none, rest)
    else if nextIs .keyword "while" toks then do
      let rest ← expect .punctuation "(" toks.tail
      let (cond, rest) ← parseExpr fuel rest
      let rest ← expect .punctuation ")" rest
      let (body, rest) ← parseStmt fuel rest
      pure (.While cond body, rest)
    else if nextIs .keyword "for" toks then do
      let rest ← expect .punctuation "(" toks.tail
      let (init, rest) ←
        if nextIs .punctuation ";" rest then pure (none, rest)
        else if nextIs .keyword "int" rest then do
          let (decl, rest') ← parseVarDecl fuel rest
          pure (some decl, rest')
        else do
          let (e, rest') ← parseExpr fuel rest
          pure (some (Stmt.ExprStmt e), rest')
      let rest ← expect .punctuation ";" rest
      let (cond, rest) ←
        if nextIs .punctuation ";" rest then pure (none, rest)
        else do
          let (e, rest') ← parseExpr fuel rest
          pure (some e, rest')
      let rest ← expect .punctuation ";" rest
      let (step, rest) ←
        if nextIs .punctuation ")" rest then pure (none, rest)
        else do
          let (e, rest') ← parseExpr fuel rest
          pure (some e, rest')
      let rest ← expect .punctuation ")" rest
      let (body, rest) ← parseStmt fuel rest
      pure (.For init cond step body, rest)
    else if nextIs .keyword "switch" toks then do
      let rest ← expect .punctuation "(" toks.tail
      let (scrutinee, rest) ← parseExpr fuel rest
      let rest ← expect .punctuation ")" rest
      let rest ← expect .punctuation "\x7b" rest
      let (cases, rest) ← parseCases fuel rest
      let rest ← expect .punctuation "\x7d" rest
      pure (.Switch scrutinee cases, rest)
    else if nextIs .keyword "break" toks then do
      let rest ← expect .punctuation ";" toks.tail
      pure (.Break (peek toks).pos, rest)
    else if nextIs .keyword "continue" toks then do
      let rest ← expect .punctuation ";" toks.tail
      pure (.Continue (peek toks).pos, rest)
    else if nextIs .keyword "return" toks then
      if nextIs .punctuation ";" toks.tail then pure (.Return (peek toks).pos none, toks.tail.tail)
      else do
        let (value, rest) ← parseExpr fuel toks.tail
        let rest ← expect .punctuation ";" rest
        pure (.Return (peek toks).pos (some value), rest)
    else do
      let (e, rest) ← parseExpr fuel toks
      let rest ← expect .punctuation ";" rest
      pure (.ExprStmt e, rest)

/-- Modelled from the spec: a block, the statements between `{` and `}`. -/
def parseBlock : Nat → List Token → Except CompileError (List Stmt × List Token)
  | 0, _ => .error (.InternalError "parser out of fuel")
  | fuel + 1, toks => do
    let rest ← expect .punctuation "\x7b" toks
    let (body, rest) ← parseStmts fuel rest
    let rest ← expect .punctuation "\x7d" rest
    pure (body, rest)

/-- Modelled from the spec: the statements up to the `}` that closes their block,
which is left in the input. -/
def parseStmts : Nat → List Token → Except CompileError (List Stmt × List Token)
  | 0, _ => .error (.InternalError "parser out of fuel")
  | fuel + 1, toks =>
    if nextIs .punctuation "\x7d" toks || (peek toks).kind == .endOfInput then pure ([], toks)
    else do
      let (s, rest) ← parseStmt fuel toks
      let (ss, rest) ← parseStmts fuel rest
      pure (s :: ss, rest)

/-- Modelled from the spec: the body of a `switch`, an ordered sequence of
`case <int-literal>:` and `default:` labels, each followed by a statement list
(section 4.2). -/
def parseCases : Nat → List Token → Except CompileError (List Stmt × List Token)
  | 0, _ => .error (.InternalError "parser out of fuel")
  | fuel + 1, toks =>
    if nextIs .keyword "case" toks then
      if (peek toks.tail).kind == .intLiteral then do
        let rest ← expect .punctuation ":" toks.tail.tail
        let (body, rest) ← parseCaseBody fuel rest
        let (cases, rest) ← parseCases fuel rest
        pure (.Case (some (digitsToNat (peek toks.tail).lexeme.data)) body :: cases, rest)
      else .error (.ParseError "integer literal" (peek toks.tail))
    else if nextIs .keyword "default" toks then do
      let rest ← expect .punctuation ":" toks.tail
      let (body, rest) ← parseCaseBody fuel rest
      let (cases, rest) ← parseCases fuel rest
      pure (.Case none body :: cases, rest)
    else pure ([], toks)

/-- Modelled from the spec: the statement list under a label, up to the next
label or the end of the `switch`. -/
def parseCaseBody : Nat → List Token → Except CompileError (List Stmt × List Token)
  | 0, _ => .error (.InternalError "parser out of fuel")
  | fuel + 1, toks =>
    if endsCaseBody toks then pure ([], toks)
    else do
      let (s, rest) ← parseStmt fuel toks
      let (ss, rest) ← parseCaseBody fuel rest
      pure (s :: ss, rest)

end

/-- Modelled from the spec: the parameters of a function after its `(`, up to
and with the `)`: `int name` separated by commas. -/
def parseParams : Nat → List Token → Except CompileError (List Param × List Token)
  | 0, _ => .error (.InternalError "parser out of fuel")
  | fuel + 1, toks =>
    if nextIs .punctuation ")" toks then pure ([], toks.tail)
    else do
      let rest ← expect .keyword "int" toks
      let (name, rest) ← expectIdentifier rest
      if nextIs .punctuation "," rest then
        if nextIs .punctuation ")" rest.tail then .error (.ParseError "int" (peek rest.tail))
        else do
          let (params, rest') ← parseParams fuel rest.tail
          pure (⟨name.lexeme, name.pos, none⟩ :: params, rest')
      else do
        let rest' ← expect .punctuation ")" rest
        pure ([⟨name.lexeme, name.pos, none⟩], rest')

/-- Modelled from the spec: a function, `int name ( params ) block`. -/
def parseFunction (fuel : Nat) (toks : List Token) :
    Except CompileError (FunctionDecl × List Token) := do
  let rest ← expect .keyword "int" toks
  let (name, rest) ← expectIdentifier rest
  let rest ← expect .punctuation "(" rest
  let (params, rest) ← parseParams fuel rest
  let (body, rest) ← parseBlock fuel rest
  pure (⟨name.lexeme, name.pos, params, body⟩, rest)

/-- Modelled from the spec: the functions of the translation unit, up to the
end-of-input token. -/
def parseFunctions : Nat → List Token → Except CompileError (List FunctionDecl)
  | 0, _ => .error (.InternalError "parser out of fuel")
  | fuel + 1, toks =>
    if (peek toks).kind == .endOfInput then pure []
    else do
      let (f, rest) ← parseFunction fuel toks
      let fs ← parseFunctions fuel rest
      pure (f :: fs)

/-- Modelled from the spec: the parser of section 4.2, which is not in the
repository, from the token sequence to the `Program` node. It stops at the first
syntax error. The fuel bounds the depth of the descent, which is below ten levels
for each token. -/
def parse (toks : List Token) : Except CompileError Program := do
  let fs ← parseFunctions (10 * toks.length + 10) toks
  pure ⟨fs⟩

/-! ### The semantic analyzer -/

/-- Modelled from the spec: a function signature of section 3. -/
structure FunctionSignature where
  name : String
  paramTypes : List Ty
  returnType : Ty
  deriving DecidableEq, Repr

/-- Modelled from the spec: the state of the analysis of a function, with the
signatures collected by the pre-pass, the scope stack of section 3 (innermost
scope first), the next stack offset in declaration order, and the numbers of
loops and of switches around the statement at hand. -/
structure Ctx where
  signatures : List FunctionSignature
  scopes : List (List Symbol)
  nextOffset : Nat
  loopDepth : Nat
  switchDepth : Nat
  deriving Repr

/-- Modelled from the spec: the pre-pass of section 4.3 that registers every
function signature before any body is checked; a name registered twice is a
duplicate declaration in the global scope. -/
def collectSignatures : List FunctionDecl → List FunctionSignature →
    Except CompileError (List FunctionSignature)
  | [], sigs => .ok sigs
  | f :: fs, sigs =>
    if sigs.any (fun s => s.name == f.name) then .error (.DuplicateDeclarationError f.name f.pos)
    else collectSignatures fs (sigs ++ [⟨f.name, f.params.map (fun _ => Ty.int), Ty.int⟩])

/-- Modelled from the spec: the symbol with this name in one scope. -/
def lookupScope (name : String) (scope : List Symbol) : Option Symbol :=
  scope.find? (fun s => s.name == name)

/-- Modelled from the spec: resolution of a variable through the scope stack,
innermost scope first, so that an inner declaration shadows an outer one. -/
def lookupVar (name : String) : List (List Symbol) → Option Symbol
  | [] => none
  | scope :: outer =>
    match lookupScope name scope with
    | some s => some s
    | none => lookupVar name outer

/-- Modelled from the spec: a variable is declared in the innermost scope and
takes the next stack offset; a second declaration of the name in the same scope is
a `DuplicateDeclarationError` (section 3). -/
def declare (name : String) (pos : Pos) (ctx : Ctx) : Except CompileError (Symbol × Ctx) :=
  match ctx.scopes with
  | [] => .error (.InternalError "no scope")
  | scope :: outer =>
    if (lookupScope name scope).isSome then .error (.DuplicateDeclarationError name pos)
    else
      let sym : Symbol :=
        ⟨name, .variable, .int, ctx.scopes.length, .stackOffset ctx.nextOffset⟩
      .ok (sym, { ctx with scopes := (sym :: scope) :: outer, nextOffset := ctx.nextOffset + 1 })

/-- Modelled from the spec: a scope is created on entering a block. -/
def Ctx.push (ctx : Ctx) : Ctx := { ctx with scopes := [] :: ctx.scopes }

/-- Modelled from the spec: the scopes created inside a construct are destroyed
when it is left; the stack offsets that its declarations took stay taken. -/
def Ctx.leave (outer inner : Ctx) : Ctx := { outer with nextOffset := inner.nextOffset }

mutual

/-- Modelled from the spec: an expression is checked and every node of it is
tagged with its type (section 4.3). An identifier or an assignment target that no
scope declares, or a callee that no signature declares, is an `UndeclaredError`; a
call with the wrong number of arguments is a `TypeError`. -/
def analyzeExpr (ctx : Ctx) : Expr → Except CompileError Expr
  | .IntLiteral value _ => .ok (.IntLiteral value (some .int))
  | .Identifier name pos _ _ =>
    match lookupVar name ctx.scopes with
    | some sym => .ok (.Identifier name pos (some .int) (some sym))
    | none => .error (.UndeclaredError name pos)
  | .BinaryExpr op lhs rhs _ => do
    let lhs' ← analyzeExpr ctx lhs
    let rhs' ← analyzeExpr ctx rhs
    pure (.BinaryExpr op lhs' rhs' (some .int))
  | .UnaryExpr op operand _ => do
    let operand' ← analyzeExpr ctx operand
    pure (.UnaryExpr op operand' (some .int))
  | .Assign target pos value _ _ =>
    match lookupVar target ctx.scopes with
    | some sym => do
      let value' ← analyzeExpr ctx value
      pure (.Assign target pos value' (some .int) (some sym))
    | none => .error (.UndeclaredError target pos)
  | .Call callee pos args _ _ =>
    match ctx.signatures.find? (fun s => s.name == callee) with
    | none => .error (.UndeclaredError callee pos)
    | some sig =>
      if sig.paramTypes.length != args.length then
        .error (.TypeError "wrong number of arguments" pos)
      else do
        let args' ← analyzeArgs ctx args
        pure (.Call callee pos args' (some sig.returnType)
          (some ⟨callee, .function, sig.returnType, 0, .label callee⟩))

/-- Modelled from the spec: the arguments of a call are checked in order. -/
def analyzeArgs (ctx : Ctx) : List Expr → Except CompileError (List Expr)
  | [] => .ok []
  | arg :: args => do
    let arg' ← analyzeExpr ctx arg
    let args' ← analyzeArgs ctx args
    pure (arg' :: args')

end

/-- Modelled from the spec: an optional expression is checked when it is there. -/
def analyzeOptExpr (ctx : Ctx) : Option Expr → Except CompileError (Option Expr)
  | none => .ok none
  | some e => do
    let e' ← analyzeExpr ctx e
    pure (some e')

mutual

/-- Modelled from the spec: a statement is checked (section 4.3) and returned
with its annotations and with the state that the statements after it see. A block,
a `for` loop and the body of a `switch` each open a scope and close it at their
end; `break` needs a loop or a `switch` around it and `continue` a loop, else a
`ControlFlowError`; the value of `return` must be there, as the function returns
`int`, else a `TypeError`. The analysis stops at the first error. -/
def analyzeStmt (ctx : Ctx) : Stmt → Except CompileError (Stmt × Ctx)
  | .VarDecl name pos init _ => do
    let init' ← analyzeOptExpr ctx init
    let (sym, ctx') ← declare name pos ctx
    pure (.VarDecl name pos init' (some sym), ctx')
  | .Block body => do
    let (body', inner) ← analyzeStmts ctx.push body
    pure (.Block body', ctx.leave inner)
  | .If cond thenBranch elseBranch => do
    let cond' ← analyzeExpr ctx cond
    let (thenBranch', c1) ← analyzeStmt ctx thenBranch
    match elseBranch with
    | none => pure (.If cond' thenBranch' none, ctx.leave c1)
    | some e => do
      let (e', c2) ← analyzeStmt (ctx.leave c1) e
      pure (.If cond' thenBranch' (some e'), ctx.leave c2)
  | .While cond body => do
    let cond' ← analyzeExpr ctx cond
    let (body', c1) ← analyzeStmt { ctx with loopDepth := ctx.loopDepth + 1 } body
    pure (.While cond' body', ctx.leave c1)
  | .For init cond step body => do
    let (init', c1) ←
      match init with
      | none => pure (none, ctx.push)
      | some s => do
        let (s', c) ← analyzeStmt ctx.push s
        pure (some s', c)
    let cond' ← analyzeOptExpr c1 cond
    let step' ← analyzeOptExpr c1 step
    let (body', c2) ← analyzeStmt { c1 with loopDepth := c1.loopDepth + 1 } body
    pure (.For init' cond' step' body', ctx.leave c2)
  | .Switch scrutinee cases => do
    let scrutinee' ← analyzeExpr ctx scrutinee
    let (cases', c1) ← analyzeCases { ctx.push with switchDepth := ctx.switchDepth + 1 } cases
    pure (.Switch scrutinee' cases', ctx.leave c1)
  | .Case _ _ => .error (.InternalError "case label outside a switch")
  | .Break pos =>
    if ctx.loopDepth == 0 && ctx.switchDepth == 0 then
      .error (.ControlFlowError "break outside a loop or switch" pos)
    else pure (.Break pos, ctx)
  | .Continue pos =>
    if ctx.loopDepth == 0 then .error (.ControlFlowError "continue outside a loop" pos)
    else pure (.Continue pos, ctx)
  | .Return pos value =>
    match value with
    | none => .error (.TypeError "return without a value" pos)
    | some e => do
      let e' ← analyzeExpr ctx e
      pure (.Return pos (some e'), ctx)
  | .ExprStmt e => do
    let e' ← analyzeExpr ctx e
    pure (.ExprStmt e', ctx)

/-- Modelled from the spec: the statements of a list are checked in order, each
in the state left by the one before it. -/
def analyzeStmts (ctx : Ctx) : List Stmt → Except CompileError (List Stmt × Ctx)
  | [] => .ok ([], ctx)
  | s :: ss => do
    let (s', c1) ← analyzeStmt ctx s
    let (ss', c2) ← analyzeStmts c1 ss
    pure (s' :: ss', c2)

/-- Modelled from the spec: the `Case` nodes of a `switch` are checked in source
order. -/
def analyzeCases (ctx : Ctx) : List Stmt → Except CompileError (List Stmt × Ctx)
  | [] => .ok ([], ctx)
  | .Case label body :: rest => do
    let (body', c1) ← analyzeStmts ctx body
    let (rest', c2) ← analyzeCases c1 rest
    pure (.Case label body' :: rest', c2)
  | _ :: _ => .error (.InternalError "statement outside a case label")

end

/-- Modelled from the spec: the parameters of a function are declared in its
scope, in order. -/
def declareParams (ctx : Ctx) : List Param → Except CompileError (List Param × Ctx)
  | [] => .ok ([], ctx)
  | p :: ps => do
    let (sym, c1) ← declare p.name p.pos ctx
    let (ps', c2) ← declareParams c1 ps
    pure (⟨p.name, p.pos, some sym⟩ :: ps', c2)

/-- Modelled from the spec: a function is checked in a scope of its own, which
holds its parameters, with its body block nested in it. -/
def analyzeFunction (sigs : List FunctionSignature) (f : FunctionDecl) :
    Except CompileError FunctionDecl := do
  let (params', c1) ← declareParams ⟨sigs, [[]], 0, 0, 0⟩ f.params
  let (body', _) ← analyzeStmts c1.push f.body
  pure ⟨f.name, f.pos, params', body'⟩

/-- Modelled from the spec: the functions are checked in source order, up to the
first failure. -/
def analyzeFunctions (sigs : List FunctionSignature) :
    List FunctionDecl → Except CompileError (List FunctionDecl)
  | [] => .ok []
  | f :: fs => do
    let f' ← analyzeFunction sigs f
    let fs' ← analyzeFunctions sigs fs
    pure (f' :: fs')

/-- Modelled from the spec: the semantic analyzer of section 4.3, which is not in
the repository, from the tree of the parser to the annotated tree. -/
def analyze (p : Program) : Except CompileError Program := do
  let sigs ← collectSignatures p.functions []
  let fs ← analyzeFunctions sigs p.functions
  pure ⟨fs⟩

/-! ### The code generator

The specification leaves the instruction set to the implementer (section 6). The
model emits text for a stack machine: an expression leaves its value on the
stack, `load k` and `store k` move a value between the stack and the frame slot
at offset `k`, and `jz`, `jnz` and `jmp` take a label. -/

/-- Modelled from the spec: the frame slot of a resolved variable; a node without
a resolved symbol is the fatal condition of section 4.4. -/
def slotOf : Option Symbol → Except CompileError Nat
  | some ⟨_, .variable, _, _, .stackOffset k⟩ => .ok k
  | _ => .error (.InternalError "unresolved variable")

/-- Modelled from the spec: every expression node that reaches the generator
carries a resolved type (section 3). -/
def requireType : Option Ty → Except CompileError Unit
  | some _ => .ok ()
  | none => .error (.InternalError "untyped expression")

/-- Modelled from the spec: the instruction of an operator whose operands are both
evaluated; `&&` and `||` are lowered to jumps instead. -/
def binOpInstr : BinOp → String
  | .or => "or" | .and => "and" | .eq => "cmpeq" | .ne => "cmpne" | .lt => "cmplt"
  | .gt => "cmpgt" | .le => "cmple" | .ge => "cmpge" | .add => "add" | .sub => "sub"
  | .mul => "mul" | .div => "div" | .mod => "mod"

/-- Modelled from the spec: the label with number `n`. -/
def labelName (n : Nat) : String := "L" ++ toString n

mutual

/-- Modelled from the spec: the code of an expression (section 4.4), with the
next free label number. The operands of a binary operator are evaluated left to
right; for `&&` and `||` the code of the right operand is jumped over when the left
operand decides the result. The arguments of a call are pushed in order. -/
def genExpr (next : Nat) : Expr → Except CompileError (List String × Nat)
  | .IntLiteral value ty => do
    requireType ty
    pure (["  push " ++ toString value], next)
  | .Identifier _ _ ty sym => do
    requireType ty
    let k ← slotOf sym
    pure (["  load " ++ toString k], next)
  | .BinaryExpr op lhs rhs ty => do
    requireType ty
    let (l, n1) ← genExpr next lhs
    let (r, n2) ← genExpr n1 rhs
    match op with
    | .and =>
      pure (l ++ ["  jz " ++ labelName n2] ++ r ++ ["  jz " ++ labelName n2, "  push 1",
        "  jmp " ++ labelName (n2 + 1), labelName n2 ++ ":", "  push 0",
        labelName (n2 + 1) ++ ":"], n2 + 2)
    | .or =>
      pure (l ++ ["  jnz " ++ labelName n2] ++ r ++ ["  jnz " ++ labelName n2, "  push 0",
        "  jmp " ++ labelName (n2 + 1), labelName n2 ++ ":", "  push 1",
        labelName (n2 + 1) ++ ":"], n2 + 2)
    | _ => pure (l ++ r ++ ["  " ++ binOpInstr op], n2)
  | .UnaryExpr op operand ty => do
    requireType ty
    let (c, n1) ← genExpr next operand
    pure (c ++ [match op with | .not => "  not" | .neg => "  neg"], n1)
  | .Assign _ _ value ty sym => do
    requireType ty
    let k ← slotOf sym
    let (c, n1) ← genExpr next value
    pure (c ++ ["  dup", "  store " ++ toString k], n1)
  | .Call callee _ args ty sym => do
    requireType ty
    match sym with
    | some ⟨_, .function, _, _, .label l⟩ =>
      let (c, n1) ← genArgs next args
      pure (c ++ ["  call " ++ l ++ " " ++ toString args.length], n1)
    | _ => .error (.InternalError ("unresolved function " ++ callee))

/-- Modelled from the spec: the code of the arguments of a call, left to right. -/
def genArgs (next : Nat) : List Expr → Except CompileError (List String × Nat)
  | [] => .ok ([], next)
  | arg :: args => do
    let (c, n1) ← genExpr next arg
    let (cs, n2) ← genArgs n1 args
    pure (c ++ cs, n2)

end

/-- Modelled from the spec: the targets of `break` and `continue` at a statement,
the end-label of the innermost loop or `switch` and the step or top label of the
innermost loop (section 4.4). -/
structure Targets where
  breakTo : Option String
  continueTo : Option String
  deriving Repr

/-- Modelled from the spec: the compare-and-jump sequence of a `switch`, one for
each `case` constant in source order, to the label of that case; the labels of
the cases are numbered from `first` in source order. -/
def genDispatch (first : Nat) : List Stmt → List String
  | [] => []
  | .Case (some k) _ :: rest =>
    ("  cmpjeq " ++ toString k ++ " " ++ labelName first) :: genDispatch (first + 1) rest
  | _ :: rest => genDispatch (first + 1) rest

/-- Modelled from the spec: the fallback target of a `switch`, the label of its
`default` when it has one. -/
def defaultLabel (first : Nat) : List Stmt → Option String
  | [] => none
  | .Case none _ :: _ => some (labelName first)
  | _ :: rest => defaultLabel (first + 1) rest

/-- Modelled from the spec: the code of an optional expression whose value is
not used, such as the step of a `for` header. -/
def genOptExprDrop (next : Nat) : Option Expr → Except CompileError (List String × Nat)
  | none => .ok ([], next)
  | some e => do
    let (c, n1) ← genExpr next e
    pure (c ++ ["  pop"], n1)

mutual

/-- Modelled from the spec: the code of a statement (section 4.4), with the next
free label number. The control constructs are lowered to labels and jumps in the
order that the specification gives for `if`/`else`, `while`, `for` and `switch`;
`continue` in a `for` loop goes to the label in front of the step, `break` to the
end-label of the innermost loop or `switch`. -/
def genStmt (t : Targets) (next : Nat) : Stmt → Except CompileError (List String × Nat)
  | .VarDecl _ _ init sym => do
    let k ← slotOf sym
    match init with
    | none => pure ([], next)
    | some e => do
      let (c, n1) ← genExpr next e
      pure (c ++ ["  store " ++ toString k], n1)
  | .Block body => genStmts t next body
  | .If cond thenBranch elseBranch => do
    let (c, n1) ← genExpr next cond
    let (th, n2) ← genStmt t (n1 + 2) thenBranch
    match elseBranch with
    | none =>
      pure (c ++ ["  jz " ++ labelName (n1 + 1)] ++ th
        ++ ["  jmp " ++ labelName (n1 + 1), labelName (n1 + 1) ++ ":"], n2)
    | some e => do
      let (el, n3) ← genStmt t n2 e
      pure (c ++ ["  jz " ++ labelName n1] ++ th
        ++ ["  jmp " ++ labelName (n1 + 1), labelName n1 ++ ":"] ++ el
        ++ [labelName (n1 + 1) ++ ":"], n3)
  | .While cond body => do
    let (c, n1) ← genExpr (next + 2) cond
    let (b, n2) ← genStmt ⟨some (labelName (next + 1)), some (labelName next)⟩ n1 body
    pure ([labelName next ++ ":"] ++ c ++ ["  jz " ++ labelName (next + 1)] ++ b
      ++ ["  jmp " ++ labelName next, labelName (next + 1) ++ ":"], n2)
  | .For init cond step body => do
    let (i, n1) ←
      match init with
      | none => pure ([], next + 3)
      | some s => genStmt t (next + 3) s
    let (c, n2) ←
      match cond with
      | none => pure ([], n1)
      | some e => do
        let (code, n) ← genExpr n1 e
        pure (code ++ ["  jz " ++ labelName (next + 2)], n)
    let (b, n3) ← genStmt ⟨some (labelName (next + 2)), some (labelName (next + 1))⟩ n2 body
    let (s, n4) ← genOptExprDrop n3 step
    pure (i ++ [labelName next ++ ":"] ++ c ++ b ++ [labelName (next + 1) ++ ":"] ++ s
      ++ ["  jmp " ++ labelName next, labelName (next + 2) ++ ":"], n4)
  | .Switch scrutinee cases => do
    let (c, n1) ← genExpr next scrutinee
    let endLabel := labelName (n1 + cases.length)
    let (bodies, n2) ← genCases ⟨some endLabel, t.continueTo⟩ n1 (n1 + cases.length + 1) cases
    pure (c ++ ["  settmp"] ++ genDispatch n1 cases
      ++ ["  jmp " ++ (defaultLabel n1 cases).getD endLabel] ++ bodies ++ [endLabel ++ ":"], n2)
  | .Case _ _ => .error (.InternalError "case label outside a switch")
  | .Break _ =>
    match t.breakTo with
    | some l => pure (["  jmp " ++ l], next)
    | none => .error (.InternalError "break without a target")
  | .Continue _ =>
    match t.continueTo with
    | some l => pure (["  jmp " ++ l], next)
    | none => .error (.InternalError "continue without a target")
  | .Return _ value =>
    match value with
    | none => .error (.InternalError "return without a value")
    | some e => do
      let (c, n1) ← genExpr next e
      pure (c ++ ["  ret"], n1)
  | .ExprStmt e => do
    let (c, n1) ← genExpr next e
    pure (c ++ ["  pop"], n1)

/-- Modelled from the spec: the code of a statement list, in source order. -/
def genStmts (t : Targets) (next : Nat) : List Stmt → Except CompileError (List String × Nat)
  | [] => .ok ([], next)
  | s :: ss => do
    let (c, n1) ← genStmt t next s
    let (cs, n2) ← genStmts t n1 ss
    pure (c ++ cs, n2)

/-- Modelled from the spec: the bodies of the cases of a `switch`, laid out in
source order, each behind its label and with nothing between them, so that a body
without `break` falls through into the next one. -/
def genCases (t : Targets) (label next : Nat) :
    List Stmt → Except CompileError (List String × Nat)
  | [] => .ok ([], next)
  | .Case _ body :: rest => do
    let (c, n1) ← genStmts t next body
    let (cs, n2) ← genCases t (label + 1) n1 rest
    pure ([labelName label ++ ":"] ++ c ++ cs, n2)
  | _ :: _ => .error (.InternalError "statement outside a case label")

end

mutual

/-- Modelled from the spec: the number of locals that a statement declares, loop
scoped ones with the rest (section 4.4). -/
def countLocals : Stmt → Nat
  | .VarDecl _ _ _ _ => 1
  | .Block body => countLocalsList body
  | .If _ thenBranch elseBranch =>
    countLocals thenBranch + (match elseBranch with | none => 0 | some e => countLocals e)
  | .While _ body => countLocals body
  | .For init _ _ body => (match init with | none => 0 | some s => countLocals s) + countLocals body
  | .Switch _ cases => countLocalsList cases
  | .Case _ body => countLocalsList body
  | _ => 0

/-- Modelled from the spec: the number of locals that a statement list declares. -/
def countLocalsList : List Stmt → Nat
  | [] => 0
  | s :: ss => countLocals s + countLocalsList ss

end

/-- Modelled from the spec: the code of a function, its label, a frame sized to
the count of its parameters and locals, and its body; a body that falls through
its end returns an undefined value (section 4.3). -/
def genFunction (next : Nat) (f : FunctionDecl) : Except CompileError (List String × Nat) := do
  let (body, n1) ← genStmts ⟨none, none⟩ next f.body
  pure ([f.name ++ ":", "  enter " ++ toString (f.params.length + countLocalsList f.body)
    ++ " " ++ toString f.params.length] ++ body ++ ["  push 0", "  ret"], n1)

/-- Modelled from the spec: the code of the functions, in source order. -/
def genFunctions (next : Nat) : List FunctionDecl → Except CompileError (List String)
  | [] => .ok []
  | f :: fs => do
    let (c, n1) ← genFunction next f
    let cs ← genFunctions n1 fs
    pure (c ++ cs)

/-- Modelled from the spec: the code generator of section 4.4, which is not in
the repository, from the annotated tree to the lines of the assembly text. -/
def generateLines (p : Program) : Except CompileError (List String) :=
  genFunctions 0 p.functions

/-- Modelled from the spec: the assembly text of section 6, one instruction or
label on each line. -/
def generate (p : Program) : Except CompileError String := do
  let lines ← generateLines p
  pure (String.intercalate "\n" lines)

/-- Modelled from the spec: the pipeline of section 2, which is not in the
repository: lexer, parser, semantic analyzer and code generator in this order; the
first error ends it and no text is produced. -/
def compile (source : String) : Except CompileError String := do
  let toks ← lex source
  let ast ← parse toks
  let annotated ← analyze ast
  generate annotated

/-! ### The fixture -/

/-- The lines of `src/basic_example.c`, character for character; braces are
written as `\x7b` and `\x7d`. -/
def fixtureLines : List String :=
  ["/*",
   " * basic_example.c",
   " *",
   " * Arquivo de exemplo para demonstrar o funcionamento completo do compilador:",
   " * - Função de soma",
   " * - Controle de fluxo (for, while, if/else, switch)",
   " *",
   " * Serve como caso de teste para as fases de análise léxica,",
   " * análise sintática, análise semântica e geração de código assembly.",
   " */",
   "",
   "int soma(int x, int y) \x7b",
   "    return x + y;",
   "\x7d",
   "",
   "int main() \x7b",
   "    int a = 0;",
   "    int b = 5;",
   "    int c;",
   "",
   "    for (int i = 0; i < 10; i = i + 1) \x7b",
   "        if (i % 2 == 0) \x7b",
   "            continue;",
   "        \x7d",
   "",
   "        if (i == 7) \x7b",
   "            break;",
   "        \x7d",
   "",
   "        a = a + i;",
   "    \x7d",
   "",
   "    while (a < 30) \x7b",
   "        a = a + 1;",
   "    \x7d",
   "",
   "    if (a > b && b < 10) \x7b",
   "        c = soma(a, b);",
   "    \x7d else \x7b",
   "        c = a - b;",
   "    \x7d",
   "",
   "    switch (c) \x7b",
   "        case 5:",
   "            c = c + 10;",
   "            break;",
   "        case 10:",
   "            c = c + 20;",
   "            break;",
   "        default:",
   "            c = 0;",
   "    \x7d",
   "",
   "    return c;",
   "\x7d"]

/-- The text of `src/basic_example.c`: its lines joined by newlines, with no
newline after the last one. -/
def fixtureSource : String := String.intercalate "\n" fixtureLines

/-! ## Helper lemmas -/

/-- The reduction to 32 bits leaves a value of the 32-bit range as it is. -/
theorem wrap32_eq_self (n : Int) (hlo : INT_MIN ≤ n) (hhi : n ≤ INT_MAX) : wrap32 n = n := by
  unfold INT_MIN at hlo
  unfold INT_MAX at hhi
  unfold wrap32
  omega

/-- A pass whose body neither breaks nor changes `i` runs the step on `i`. -/
theorem forPass_next {σ : Type} (body : Int → σ → Signal × Int × σ)
    (hbrk : ∀ i s, (body i s).1 ≠ Signal.brk) (hi : ∀ i s, (body i s).2.1 = i)
    (i : Int) (s : σ) (hlt : i < 10) :
    forPass body i s = Pass.next (forStep i) (body i s).2.2 := by
  have h1 := hbrk i s
  have h2 := hi i s
  unfold forPass
  rcases hb : body i s with ⟨sig, i', s'⟩
  rw [hb] at h1 h2
  simp only at h1 h2
  subst h2
  cases sig <;> simp_all [forCond]

/-- A loop whose body neither breaks nor changes `i` goes on, below 10, with the
step run and the entry recorded. -/
theorem forLoop_next {σ : Type} (body : Int → σ → Signal × Int × σ)
    (hbrk : ∀ i s, (body i s).1 ≠ Signal.brk) (hi : ∀ i s, (body i s).2.1 = i)
    (fuel : Nat) (i : Int) (s : σ) (vs : List (Visit σ)) (hlt : i < 10) :
    forLoop body (fuel + 1) i s vs
      = forLoop body fuel (forStep i) (body i s).2.2
          (vs ++ [⟨i, (body i s).1, (body i s).2.2⟩]) := by
  rw [forLoop, forPass_next body hbrk hi i s hlt]

/-- From 10 on the condition fails and the loop ends where it is. -/
theorem forLoop_done {σ : Type} (body : Int → σ → Signal × Int × σ)
    (fuel : Nat) (i : Int) (s : σ) (vs : List (Visit σ)) (hge : 10 ≤ i) :
    forLoop body (fuel + 1) i s vs = .ok ⟨i, s, false, vs⟩ := by
  have hc : forCond i = false := by simp [forCond]; omega
  simp [forLoop, forPass, hc]

/-- More fuel does not change the result of a `for` loop that ended. -/
theorem forLoop_fuel_mono {σ : Type} (body : Int → σ → Signal × Int × σ) (k : Nat) :
    ∀ (fuel : Nat) (i : Int) (s : σ) (vs : List (Visit σ)) (r : ForEnd σ),
      forLoop body fuel i s vs = .ok r → forLoop body (fuel + k) i s vs = .ok r := by
  intro fuel
  induction fuel with
  | zero => intro i s vs r h; simp [forLoop] at h
  | succ n ih =>
    intro i s vs r h
    have e : n + 1 + k = (n + k) + 1 := by omega
    rw [e]
    rw [forLoop] at h ⊢
    cases hp : forPass body i s with
    | done i' s' => rw [hp] at h; exact h
    | broke i' s' => rw [hp] at h; exact h
    | next i' s' =>
      rw [hp] at h
      exact ih _ _ _ _ h

/-- More fuel does not change the result of a `while` loop that ended. -/
theorem whileLoop_fuel_mono {σ : Type} (cond : σ → Bool) (body : σ → Signal × σ) (k : Nat) :
    ∀ (fuel : Nat) (s : σ) (n : Nat) (r : WhileEnd σ),
      whileLoop cond body fuel s n = .ok r → whileLoop cond body (fuel + k) s n = .ok r := by
  intro fuel
  induction fuel with
  | zero => intro s n r h; simp [whileLoop] at h
  | succ m ih =>
    intro s n r h
    have e : m + 1 + k = (m + k) + 1 := by omega
    rw [e]
    rw [whileLoop] at h ⊢
    by_cases hc : cond s = true
    · rw [if_pos hc] at h ⊢
      rcases hb : body s with ⟨sig, s'⟩
      rw [hb] at h
      cases sig
      · exact ih _ _ _ h
      · exact h
      · exact ih _ _ _ h
    · rw [if_neg hc] at h ⊢
      exact h

/-- The switch of `main` on a set `c`, under either reading. -/
theorem switchWith_some (mode : SwitchMode) (a b c : Int) :
    switchWith mode ⟨a, b, some c⟩
      = .ok ⟨a, b, some (if c = 5 then 15 else if c = 10 then 30 else 0)⟩ := by
  by_cases h5 : c = 5
  · subst h5
    cases mode <;> rfl
  · by_cases h10 : c = 10
    · subst h10
      cases mode <;> rfl
    · have e5 : ¬ (some (5 : Int) = some c) := by
        intro h; exact h5 (Option.some.inj h).symm
      have e10 : ¬ (some (10 : Int) = some c) := by
        intro h; exact h10 (Option.some.inj h).symm
      cases mode <;>
        simp [switchWith, readC, execSwitch, selectArms, armsFrom, armsFromDefault, switchArms,
          runArms, runArmsBreakByDefault, defaultBody, h5, h10, e5, e10]

/-- The switch of `main` on an unset `c` fails at the read, under either reading. -/
theorem switchWith_none (mode : SwitchMode) (a b : Int) :
    switchWith mode ⟨a, b, none⟩ = .error Err.uninitRead := by
  cases mode <;> rfl

/-- The `if`/`else` always sets `c`. -/
theorem ifElse_sets_c (s : MainState) :
    ∃ v, ifElse s = ⟨s.a, s.b, some v⟩ := by
  unfold ifElse
  split
  · exact ⟨_, rfl⟩
  · exact ⟨_, rfl⟩

/-- The `while` loop of `main` from any 32-bit value of `a`. -/
theorem whileLoop_main (k : Nat) :
    ∀ (s : MainState) (n fuel : Nat), INT_MIN ≤ s.a → (30 - s.a).toNat = k → k < fuel →
      whileLoop whileCond whileBody fuel s n = .ok ⟨{ s with a := max s.a 30 }, n + k⟩ := by
  induction k with
  | zero =>
    intro s n fuel _ hk hf
    obtain ⟨m, rfl⟩ : ∃ m, fuel = m + 1 := ⟨fuel - 1, by omega⟩
    have hge : 30 ≤ s.a := by omega
    have hc : whileCond s = false := by simp [whileCond]; omega
    have hm : max s.a 30 = s.a := max_eq_left hge
    simp [whileLoop, hc, hm]
  | succ k ih =>
    intro s n fuel hlo hk hf
    obtain ⟨m, rfl⟩ : ∃ m, fuel = m + 1 := ⟨fuel - 1, by omega⟩
    have hlt : s.a < 30 := by omega
    have hc : whileCond s = true := by simp [whileCond]; omega
    have hw : wrap32 (s.a + 1) = s.a + 1 :=
      wrap32_eq_self _ (by omega) (by unfold INT_MAX; omega)
    have hstep := ih { s with a := s.a + 1 } (n + 1) m (by simp; omega) (by simp; omega) (by omega)
    have hmax : max (s.a + 1) 30 = max s.a 30 := by
      rw [max_eq_right (by omega), max_eq_right (by omega)]
    simp only [hmax] at hstep
    rw [whileLoop, if_pos hc]
    simp only [whileBody, hw]
    rw [hstep]
    congr 2
    omega

/-- A `for` loop fails only by running out of fuel. -/
theorem forLoop_error {σ : Type} (body : Int → σ → Signal × Int × σ) :
    ∀ (fuel : Nat) (i : Int) (s : σ) (vs : List (Visit σ)) (e : Err),
      forLoop body fuel i s vs = .error e → e = Err.outOfFuel := by
  intro fuel
  induction fuel with
  | zero =>
    intro i s vs e h
    simp only [forLoop, Except.error.injEq] at h
    exact h.symm
  | succ n ih =>
    intro i s vs e h
    rw [forLoop] at h
    cases hp : forPass body i s with
    | done i' s' => rw [hp] at h; cases h
    | broke i' s' => rw [hp] at h; cases h
    | next i' s' =>
      rw [hp] at h
      exact ih _ _ _ _ h

/-- A `while` loop fails only by running out of fuel. -/
theorem whileLoop_error {σ : Type} (cond : σ → Bool) (body : σ → Signal × σ) :
    ∀ (fuel : Nat) (s : σ) (n : Nat) (e : Err),
      whileLoop cond body fuel s n = .error e → e = Err.outOfFuel := by
  intro fuel
  induction fuel with
  | zero =>
    intro s n e h
    simp only [whileLoop, Except.error.injEq] at h
    exact h.symm
  | succ m ih =>
    intro s n e h
    rw [whileLoop] at h
    by_cases hc : cond s = true
    · rw [if_pos hc] at h
      rcases hb : body s with ⟨sig, s'⟩
      rw [hb] at h
      cases sig
      · exact ih _ _ _ h
      · cases h
      · exact ih _ _ _ h
    · rw [if_neg hc] at h
      cases h

/-- On an even `i` in `0 .. 9` the body of the loop of `main` ends by `continue`. -/
theorem forBody_even (s : MainState) (i : Int) (h0 : 0 ≤ i) (hev : i % 2 = 0) :
    forBody i s = (Signal.cont, i, s) := by
  have ht : Int.tmod i 2 = 0 := by
    rw [Int.tmod_eq_emod h0 (by decide)]
    exact hev
  simp [forBody, ht]

/-- The two readings differ on a switch with a body that does not end in `break`. -/
theorem modes_differ_without_break :
    execSwitch SwitchMode.fallThrough 5
        [⟨some 5, fun s => .ok (Signal.normal, { s with c := some 15 })⟩, ⟨none, defaultBody⟩]
        (⟨0, 5, some 5⟩ : MainState)
      ≠ execSwitch SwitchMode.breakByDefault 5
        [⟨some 5, fun s => .ok (Signal.normal, { s with c := some 15 })⟩, ⟨none, defaultBody⟩]
        (⟨0, 5, some 5⟩ : MainState) := by
  decide

/-- The total `for` loop of `main` ends as the loop with fuel does, whenever that
one ends. -/
theorem forLoopTotal_eq :
    ∀ (fuel : Nat) (i : Int) (s : MainState) (vs : List (Visit MainState))
      (r : ForEnd MainState),
      forLoop forBody fuel i s vs = .ok r → forLoopTotal i s = (r.i, r.st, r.byBreak) := by
  intro fuel
  induction fuel with
  | zero => intro i s vs r h; simp [forLoop] at h
  | succ n ih =>
    intro i s vs r h
    rw [forLoop] at h
    rw [forLoopTotal]
    split
    · rename_i i' s' hp
      rw [hp] at h
      simp only [Except.ok.injEq] at h
      subst h
      rfl
    · rename_i i' s' hp
      rw [hp] at h
      simp only [Except.ok.injEq] at h
      subst h
      rfl
    · rename_i i' s' hp
      rw [hp] at h
      exact ih _ _ _ _ h

/-- The total `while` loop of `main` ends as the loop with fuel does, whenever
that one ends. -/
theorem whileLoopTotal_eq :
    ∀ (fuel : Nat) (s : MainState) (n : Nat) (r : WhileEnd MainState),
      whileLoop whileCond whileBody fuel s n = .ok r → whileLoopTotal s = r.st := by
  intro fuel
  induction fuel with
  | zero => intro s n r h; simp [whileLoop] at h
  | succ m ih =>
    intro s n r h
    rw [whileLoop] at h
    rw [whileLoopTotal]
    by_cases hc : whileCond s = true
    · rw [if_pos hc] at h
      rw [dif_pos hc]
      have hsig : (whileBody s).1 ≠ Signal.brk := by simp [whileBody]
      rw [if_neg hsig]
      have hb : whileBody s = (Signal.normal, (whileBody s).2) := rfl
      rw [hb] at h
      exact ih _ _ _ h
    · rw [if_neg hc] at h
      rw [dif_neg hc]
      simp only [Except.ok.injEq] at h
      subst h
      rfl

/-- A pass of the `for` loop of `main` that does not break decreases `10 - i`. -/
theorem forStep_measure (i : Int) (hlt : i < 10) :
    10 - forStep i < 10 - i ∧ 0 < 10 - i := by
  unfold forStep wrap32
  omega

/-- An execution of the body of the `while` loop of `main` decreases `30 - a`. -/
theorem whileBody_measure (s : MainState) (hlt : s.a < 30) :
    30 - (whileBody s).2.a < 30 - s.a ∧ 0 < 30 - s.a := by
  simp only [whileBody]
  unfold wrap32
  omega

/-- The body of the `for` loop of `main` does not change `i`. -/
theorem forBody_keeps_i (i : Int) (s : MainState) : (forBody i s).2.1 = i := by
  unfold forBody
  split
  · rfl
  · split <;> rfl

/-- The short-circuit reading of the condition and the reading that evaluates
both operands agree. -/
theorem ifCond_eq_both (s : MainState) : ifCond s = ifCondBoth s := by
  unfold ifCond ifCondBoth
  by_cases h : s.a > s.b <;> simp [h]

/-- The body of the `for` loop with its record ends as the body without it and
leaves the same `i` and the same variables. -/
theorem forBodyT_erase (i : Int) (t : Traced) :
    ∃ l, forBodyT i t = ((forBody i t.st).1, (forBody i t.st).2.1, ⟨(forBody i t.st).2.2, l⟩) := by
  unfold forBodyT forBody
  split
  · exact ⟨_, rfl⟩
  · split
    · exact ⟨_, rfl⟩
    · exact ⟨_, rfl⟩

/-- The `for` loop with its record ends as the loop without it: same failure, or
same `i` and same variables. -/
theorem forLoopT_erase :
    ∀ (fuel : Nat) (i : Int) (t : Traced) (vs : List (Visit MainState)),
      Except.map (fun r => (r.1, r.2.st)) (forLoopT fuel i t)
        = Except.map (fun r => (r.i, r.st)) (forLoop forBody fuel i t.st vs) := by
  intro fuel
  induction fuel with
  | zero => intro i t vs; rfl
  | succ n ih =>
    intro i t vs
    rw [forLoopT, forLoop, forPass]
    by_cases hc : forCond i = true
    · rw [if_pos hc, if_pos hc]
      obtain ⟨l, hl⟩ := forBodyT_erase i t
      rw [hl]
      rcases hb : forBody i t.st with ⟨sig, j, s'⟩
      cases sig
      · exact ih _ _ _
      · rfl
      · exact ih _ _ _
    · rw [if_neg hc, if_neg hc]
      rfl

/-- More fuel does not change the result of the `for` loop with its record. -/
theorem forLoopT_fuel_mono (k : Nat) :
    ∀ (fuel : Nat) (i : Int) (t : Traced) (r : Int × Traced),
      forLoopT fuel i t = .ok r → forLoopT (fuel + k) i t = .ok r := by
  intro fuel
  induction fuel with
  | zero => intro i t r h; simp [forLoopT] at h
  | succ n ih =>
    intro i t r h
    have e : n + 1 + k = (n + k) + 1 := by omega
    rw [e]
    rw [forLoopT] at h ⊢
    by_cases hc : forCond i = true
    · rw [if_pos hc] at h ⊢
      rcases hb : forBodyT i t with ⟨sig, j, t'⟩
      rw [hb] at h
      cases sig
      · exact ih _ _ _ h
      · exact h
      · exact ih _ _ _ h
    · rw [if_neg hc] at h ⊢
      exact h

/-- The `while` loop with its record ends as the loop without it: same failure,
or same variables after the same number of executions of the body. -/
theorem whileLoopT_erase :
    ∀ (fuel : Nat) (t : Traced) (n : Nat),
      Except.map (fun r => (r.st.st, r.runs))
          (whileLoop (fun u => whileCond u.st) whileBodyT fuel t n)
        = Except.map (fun r => (r.st, r.runs)) (whileLoop whileCond whileBody fuel t.st n) := by
  intro fuel
  induction fuel with
  | zero => intro t n; rfl
  | succ m ih =>
    intro t n
    rw [whileLoop, whileLoop]
    by_cases hc : whileCond t.st = true
    · rw [if_pos hc, if_pos hc]
      exact ih _ _
    · rw [if_neg hc, if_neg hc]
      rfl

/-- The `if`/`else` with its record leaves the variables that the statement
without it leaves. -/
theorem ifElseT_erase (t : Traced) : (ifElseT t).st = ifElse t.st := by
  unfold ifElseT ifElse
  split <;> rfl

/-- The switch with its record ends as the switch without it. -/
theorem switchStmtT_erase (t : Traced) :
    Except.map Traced.st (switchStmtT t) = switchStmt t.st := by
  obtain ⟨⟨a, b, c⟩, l⟩ := t
  cases c with
  | none => rfl
  | some v =>
    have hr := switchWith_some SwitchMode.fallThrough a b v
    unfold switchStmt
    rw [hr]
    by_cases h5 : v = 5
    · subst h5; rfl
    · by_cases h10 : v = 10
      · subst h10; rfl
      · have e5 : ¬ (some (5 : Int) = some v) := by
          intro h; exact h5 (Option.some.inj h).symm
        have e10 : ¬ (some (10 : Int) = some v) := by
          intro h; exact h10 (Option.some.inj h).symm
        simp [switchStmtT, readC, execSwitch, selectArms, armsFrom, armsFromDefault,
          switchArmsT, runArms, defaultBodyT, Except.map, h5, h10, e5, e10]

/-- Two runs with the same erased result fail in the same way or both end, with
results that are erased to the same. -/
theorem map_eq_cases {α β γ : Type} (f : α → γ) (g : β → γ) (x : Except Err α)
    (y : Except Err β) (h : Except.map f x = Except.map g y) :
    (∃ e, x = .error e ∧ y = .error e) ∨ (∃ a b, x = .ok a ∧ y = .ok b ∧ f a = g b) := by
  cases x <;> cases y <;> simp_all [Except.map]

/-- The embedding of `main` with its record returns what `main` returns, for every
fuel. -/
theorem mainTraced_erase (fuel : Nat) : Except.map Prod.fst (mainTraced fuel) = main fuel := by
  unfold mainTraced main mainWith forStmtT forStmt whileStmtT whileStmt
  rcases map_eq_cases _ _ _ _ (forLoopT_erase fuel 0
      ⟨initState, [.store .a 0 initState, .store .b 5 initState] ++ [.store .i 0 initState]⟩ [])
    with ⟨e, h1, h2⟩ | ⟨p, r, h1, h2, hpr⟩
  · simp only [h1, h2]
    rfl
  · simp only [h1, h2]
    simp only [Prod.mk.injEq] at hpr
    rcases map_eq_cases _ _ _ _ (whileLoopT_erase fuel p.2 0) with ⟨e, h3, h4⟩ | ⟨w, v, h3, h4, hwv⟩
    · rw [hpr.2] at h4
      simp only [h3, h4]
      rfl
    · rw [hpr.2] at h4
      simp only [h3, h4]
      simp only [Prod.mk.injEq] at hwv
      have hsw := switchStmtT_erase (ifElseT w.st)
      rw [ifElseT_erase, hwv.1] at hsw
      unfold switchStmt at hsw
      cases hs : switchStmtT (ifElseT w.st) with
      | error e =>
        rw [hs] at hsw
        simp only [Except.map] at hsw
        simp only [← hsw]
        rfl
      | ok t =>
        rw [hs] at hsw
        simp only [Except.map] at hsw
        simp only [← hsw]
        cases hc : readC t.st <;> rfl

/-- More fuel does not change the result of a run of `main` with its record that
ended. -/
theorem mainTraced_fuel_mono (k fuel : Nat) (r : Int × List Event)
    (h : mainTraced fuel = .ok r) : mainTraced (fuel + k) = .ok r := by
  unfold mainTraced forStmtT at h ⊢
  cases h1 : forLoopT fuel 0
      ⟨initState, [Event.store Var.a 0 initState, Event.store Var.b 5 initState]
        ++ [Event.store Var.i 0 initState]⟩ with
  | error e =>
    simp only [h1] at h
    cases h
  | ok f =>
    simp only [h1] at h
    have h1' := forLoopT_fuel_mono k fuel 0 _ f h1
    simp only [h1']
    unfold whileStmtT at h ⊢
    cases h2 : whileLoop (fun u => whileCond u.st) whileBodyT fuel f.2 0 with
    | error e =>
      simp only [h2] at h
      cases h
    | ok w =>
      simp only [h2] at h
      have h2' := whileLoop_fuel_mono (fun u => whileCond u.st) whileBodyT k fuel f.2 0 w h2
      simp only [h2']
      exact h

/-- The run of `main` with its record, with fuel 22: it returns 0 after 78 events,
8 of them `%` operations; every event is in order for the bounds 0 and 35; the one
store to `b` is its initialisation. -/
theorem mainTraced_run :
    ∃ log, mainTraced 22 = .ok (0, log)
      ∧ log.all (Event.inOrder 0 35) = true
      ∧ log.length = 78
      ∧ (log.filter Event.isMod).length = 8
      ∧ log.filter (Event.isStoreTo Var.b) = [Event.store Var.b 5 initState] := by
  have h : (match mainTraced 22 with
      | .error _ => false
      | .ok (v, log) =>
        decide (v = 0) && log.all (Event.inOrder 0 35) && decide (log.length = 78)
          && decide ((log.filter Event.isMod).length = 8)
          && decide (log.filter (Event.isStoreTo Var.b) = [Event.store Var.b 5 initState]))
      = true := by
    decide
  cases hm : mainTraced 22 with
  | error e => rw [hm] at h; cases h
  | ok r =>
    obtain ⟨v, log⟩ := r
    rw [hm] at h
    simp only [Bool.and_eq_true, decide_eq_true_eq] at h
    obtain ⟨⟨⟨⟨hv, hall⟩, hlen⟩, hmod⟩, hb⟩ := h
    subst hv
    exact ⟨log, rfl, hall, hlen, hmod, hb⟩

/-! ## Checks of the modelled pipeline -/

/-- The token kinds of `a = a + i;`, with the end-of-input token that ends every
token sequence. -/
theorem lex_assignment_kinds :
    (lex "a = a + i;").map (fun ts => ts.map (fun t => (t.kind, t.lexeme)))
      = .ok [(.identifier, "a"), (.operator, "="), (.identifier, "a"), (.operator, "+"),
          (.identifier, "i"), (.punctuation, ";"), (.endOfInput, "")] := by
  decide!

/-- A character outside the subset is a `LexError` at its position. -/
theorem lex_rejects_unknown_character :
    lex "a = @;" = .error (.LexError '@' ⟨1, 5⟩) := by
  decide!

/-- A `break` at the top level of a function is a `ControlFlowError`. -/
theorem compile_rejects_stray_break :
    compile "int main() \x7b break; \x7d"
      = .error (.ControlFlowError "break outside a loop or switch" ⟨1, 14⟩) := by
  decide!

/-- A second declaration of a name in the same block is a
`DuplicateDeclarationError`. -/
theorem compile_rejects_redeclaration :
    compile "int main() \x7b int a; int a; return a; \x7d"
      = .error (.DuplicateDeclarationError "a" ⟨1, 25⟩) := by
  decide!

/-- A use of a name that no scope declares is an `UndeclaredError`. -/
theorem compile_rejects_undeclared :
    compile "int main() \x7b return c; \x7d" = .error (.UndeclaredError "c" ⟨1, 21⟩) := by
  decide!

/-- A statement without its `;` is a `ParseError`. -/
theorem compile_rejects_missing_semicolon :
    compile "int main() \x7b return 0 \x7d"
      = .error (.ParseError ";" ⟨.punctuation, "\x7d", ⟨1, 23⟩⟩) := by
  decide!

/-! ## `soma` -/

/-- C1: `soma` is the sum function. For all integers `x` and `y` (in particular
all 32-bit ones) whose mathematical sum lies in `[-2^31, 2^31 - 1]`, `soma x y`
is exactly `x + y`. -/
theorem soma_eq_add (x y : Int) (hlo : INT_MIN ≤ x + y) (hhi : x + y ≤ INT_MAX) :
    soma x y = x + y :=
  wrap32_eq_self (x + y) hlo hhi

theorem soma_eq_add_witness :
    INT_MIN ≤ (2147483647 : Int) + (-2147483648) ∧
      (2147483647 : Int) + (-2147483648) ≤ INT_MAX ∧
      soma 2147483647 (-2147483648) = 2147483647 + (-2147483648) :=
  ⟨by decide, by decide, soma_eq_add 2147483647 (-2147483648) (by decide) (by decide)⟩

/-! ## The `for` header -/

/-- C2: a loop with the header `for (int i = 0; i < 10; i = i + 1)` whose body
never breaks and never assigns `i` (it may end by `continue`) ends, given fuel
for its 11 evaluations of the condition: the body is entered exactly 10 times,
with `i = 0, 1, ..., 9` in that order, each time on the variables left by the
previous entry, and the loop ends through its condition with `i = 10`. -/
theorem for_header_ten_iterations {σ : Type} (body : Int → σ → Signal × Int × σ)
    (hbrk : ∀ i s, (body i s).1 ≠ Signal.brk) (hi : ∀ i s, (body i s).2.1 = i)
    (s : σ) (fuel : Nat) (hfuel : 11 ≤ fuel) :
    ∃ r, forStmt body fuel s = .ok r
      ∧ r.visits.map Visit.i = [0, 1, 2, 3, 4, 5, 6, 7, 8, 9]
      ∧ r.visits.length = 10
      ∧ r.i = 10
      ∧ r.byBreak = false
      ∧ r.st = ([0, 1, 2, 3, 4, 5, 6, 7, 8, 9] : List Int).foldl (fun t k => (body k t).2.2) s := by
  obtain ⟨k, rfl⟩ : ∃ k, fuel = k + 11 := ⟨fuel - 11, by omega⟩
  have st : ∀ j : Int, 0 ≤ j → j < 10 → forStep j = j + 1 := by
    intro j h0 h1
    exact wrap32_eq_self _ (by unfold INT_MIN; omega) (by unfold INT_MAX; omega)
  unfold forStmt
  rw [forLoop_next body hbrk hi _ 0 _ _ (by decide), st 0 (by decide) (by decide)]
  rw [forLoop_next body hbrk hi _ (0 + 1) _ _ (by decide), st (0 + 1) (by decide) (by decide)]
  rw [forLoop_next body hbrk hi _ (0 + 1 + 1) _ _ (by decide),
    st (0 + 1 + 1) (by decide) (by decide)]
  rw [forLoop_next body hbrk hi _ (0 + 1 + 1 + 1) _ _ (by decide),
    st (0 + 1 + 1 + 1) (by decide) (by decide)]
  rw [forLoop_next body hbrk hi _ (0 + 1 + 1 + 1 + 1) _ _ (by decide),
    st (0 + 1 + 1 + 1 + 1) (by decide) (by decide)]
  rw [forLoop_next body hbrk hi _ (0 + 1 + 1 + 1 + 1 + 1) _ _ (by decide),
    st (0 + 1 + 1 + 1 + 1 + 1) (by decide) (by decide)]
  rw [forLoop_next body hbrk hi _ (0 + 1 + 1 + 1 + 1 + 1 + 1) _ _ (by decide),
    st (0 + 1 + 1 + 1 + 1 + 1 + 1) (by decide) (by decide)]
  rw [forLoop_next body hbrk hi _ (0 + 1 + 1 + 1 + 1 + 1 + 1 + 1) _ _ (by decide),
    st (0 + 1 + 1 + 1 + 1 + 1 + 1 + 1) (by decide) (by decide)]
  rw [forLoop_next body hbrk hi _ (0 + 1 + 1 + 1 + 1 + 1 + 1 + 1 + 1) _ _ (by decide),
    st (0 + 1 + 1 + 1 + 1 + 1 + 1 + 1 + 1) (by decide) (by decide)]
  rw [forLoop_next body hbrk hi _ (0 + 1 + 1 + 1 + 1 + 1 + 1 + 1 + 1 + 1) _ _ (by decide),
    st (0 + 1 + 1 + 1 + 1 + 1 + 1 + 1 + 1 + 1) (by decide) (by decide)]
  rw [forLoop_done body _ _ _ _ (by decide)]
  refine ⟨_, rfl, ?_, ?_, ?_, ?_, ?_⟩
  · simp
  · simp
  · norm_num
  · rfl
  · simp

theorem for_header_ten_iterations_witness :
    (∀ i s, (forBodyNoBreak i s).1 ≠ Signal.brk) ∧ (∀ i s, (forBodyNoBreak i s).2.1 = i) ∧
    ∃ r, forStmt forBodyNoBreak 11 initState = .ok r
      ∧ r.visits.map Visit.i = [0, 1, 2, 3, 4, 5, 6, 7, 8, 9]
      ∧ r.visits.length = 10
      ∧ r.i = 10
      ∧ r.byBreak = false
      ∧ r.st = ([0, 1, 2, 3, 4, 5, 6, 7, 8, 9] : List Int).foldl
          (fun t k => (forBodyNoBreak k t).2.2) initState :=
  have hbrk : ∀ i s, (forBodyNoBreak i s).1 ≠ Signal.brk := by
    intro i s
    unfold forBodyNoBreak
    split <;> simp
  have hi : ∀ i s, (forBodyNoBreak i s).2.1 = i := by
    intro i s
    unfold forBodyNoBreak
    split <;> rfl
  ⟨hbrk, hi, for_header_ten_iterations forBodyNoBreak hbrk hi initState 11 (le_refl 11)⟩

/-! ## Initialisation of `c` -/

/-- C3: `c` starts unset and is set by the `if`/`else` before it is read. On every
path, that is whatever the variables are when the `if`/`else` is reached, `c` is
set after it, the switch (line 43) reads it without error and leaves it set, and
`return c` reads a value; and no run of `main`, with any fuel, ends in a read of
an unset variable. -/
theorem c_set_before_read :
    initState.c = none
    ∧ (∀ s : MainState, ∃ v w s2,
        (ifElse s).c = some v ∧ readC (ifElse s) = .ok v
        ∧ switchStmt (ifElse s) = .ok s2 ∧ s2.c = some w ∧ readC s2 = .ok w)
    ∧ (∀ fuel, main fuel ≠ .error Err.uninitRead) := by
  have hpath : ∀ s : MainState, ∃ v w s2,
      (ifElse s).c = some v ∧ readC (ifElse s) = .ok v
      ∧ switchStmt (ifElse s) = .ok s2 ∧ s2.c = some w ∧ readC s2 = .ok w := by
    intro s
    obtain ⟨v, hv⟩ := ifElse_sets_c s
    rw [hv]
    exact ⟨v, _, _, rfl, rfl, switchWith_some SwitchMode.fallThrough s.a s.b v, rfl, rfl⟩
  refine ⟨rfl, hpath, ?_⟩
  intro fuel h
  unfold main mainWith at h
  cases hf : forStmt forBody fuel initState with
  | error e1 =>
    rw [hf] at h
    simp only [Except.error.injEq] at h
    subst h
    exact Err.noConfusion (forLoop_error forBody fuel 0 initState [] _ hf)
  | ok f =>
    rw [hf] at h
    simp only at h
    cases hw : whileStmt fuel f.st with
    | error e2 =>
      rw [hw] at h
      simp only [Except.error.injEq] at h
      subst h
      exact Err.noConfusion (whileLoop_error whileCond whileBody fuel f.st 0 _ hw)
    | ok w =>
      rw [hw] at h
      simp only at h
      obtain ⟨v, w2, s2, _, _, hs, _, hr⟩ := hpath w.st
      unfold switchStmt at hs
      rw [hs] at h
      simp only at h
      rw [hr] at h
      cases h

/-! ## The `switch` -/

/-- C4: the switch of `main` as a function of `c` on entry. For every integer `c`
(and all `a`, `b`) it leaves `c = 15` if `c` was 5, `c = 30` if `c` was 10 and
`c = 0` otherwise, with `a` and `b` as they were. The bodies laid out from the
selected label on are those of `case 5`, `case 10` and `default` for 5, those of
`case 10` and `default` for 10, and that of `default` otherwise; for 5 and for 10
the run of the bodies ends by `break` after the first of them, so `case 5` does not
continue into `case 10` or `default`. -/
theorem switch_selects_one_body (a b c : Int) :
    switchStmt ⟨a, b, some c⟩
        = .ok ⟨a, b, some (if c = 5 then 15 else if c = 10 then 30 else 0)⟩
    ∧ (selectArms c switchArms).map Arm.label
        = (if c = 5 then [some 5, some 10, none] else if c = 10 then [some 10, none] else [none])
    ∧ runArms (selectArms c switchArms) ⟨a, b, some c⟩
        = .ok (if c = 5 then (Signal.brk, ⟨a, b, some 15⟩)
            else if c = 10 then (Signal.brk, ⟨a, b, some 30⟩)
            else (Signal.normal, ⟨a, b, some 0⟩)) := by
  refine ⟨switchWith_some SwitchMode.fallThrough a b c, ?_, ?_⟩
  · by_cases h5 : c = 5
    · subst h5; rfl
    · by_cases h10 : c = 10
      · subst h10; rfl
      · have e5 : ¬ (some (5 : Int) = some c) := by
          intro h; exact h5 (Option.some.inj h).symm
        have e10 : ¬ (some (10 : Int) = some c) := by
          intro h; exact h10 (Option.some.inj h).symm
        simp [selectArms, armsFrom, armsFromDefault, switchArms, h5, h10, e5, e10]
  · by_cases h5 : c = 5
    · subst h5; rfl
    · by_cases h10 : c = 10
      · subst h10; rfl
      · have e5 : ¬ (some (5 : Int) = some c) := by
          intro h; exact h5 (Option.some.inj h).symm
        have e10 : ¬ (some (10 : Int) = some c) := by
          intro h; exact h10 (Option.some.inj h).symm
        simp [selectArms, armsFrom, armsFromDefault, switchArms, runArms, defaultBody,
          h5, h10, e5, e10]

/-- C5, refuted as stated: there is no value of the variables on entry for which
the switch of `main` under fall-through and under break-by-default end
differently, and `main` returns 0 under both. -/
theorem fallthrough_dependence_refuted :
    (¬ ∃ s : MainState,
        switchWith SwitchMode.fallThrough s ≠ switchWith SwitchMode.breakByDefault s)
    ∧ mainWith SwitchMode.fallThrough 22 = .ok 0
    ∧ mainWith SwitchMode.breakByDefault 22 = .ok 0 := by
  refine ⟨?_, by decide, by decide⟩
  rintro ⟨⟨a, b, c⟩, h⟩
  apply h
  cases c with
  | none => rw [switchWith_none, switchWith_none]
  | some v => rw [switchWith_some, switchWith_some]

/-- C5, amended: the switch of `main` does not depend on the fall-through rule.
Every body but the last ends in `break` and `default` is last, so for all values
of the variables on entry the switch ends in the same way under fall-through and
under break-by-default, and so does `main` with any fuel; with fuel 22 it returns
0 under both. -/
theorem switch_modes_agree :
    (∀ s : MainState,
        switchWith SwitchMode.fallThrough s = switchWith SwitchMode.breakByDefault s)
    ∧ (∀ fuel, mainWith SwitchMode.breakByDefault fuel = main fuel)
    ∧ mainWith SwitchMode.breakByDefault 22 = .ok 0
    ∧ main 22 = .ok 0 := by
  have hsw : ∀ s : MainState,
      switchWith SwitchMode.fallThrough s = switchWith SwitchMode.breakByDefault s := by
    rintro ⟨a, b, c⟩
    cases c with
    | none => rw [switchWith_none, switchWith_none]
    | some v => rw [switchWith_some, switchWith_some]
  refine ⟨hsw, ?_, by decide, by decide⟩
  intro fuel
  unfold main mainWith
  simp only [hsw]

/-! ## `continue` in the `for` loop -/

/-- C6: in the loop of `main`, `continue` goes to the step. For all variables `s`
and every even `i` with `0 ≤ i < 10`, the body ends by `continue` with `i` and the
variables (`a`, `b`, `c`) unchanged, and the pass ends with the step run: the next
evaluation of `i < 10` is on `i + 1` and the same variables. -/
theorem continue_runs_step (s : MainState) (i : Int) (h0 : 0 ≤ i) (h10 : i < 10)
    (hev : i % 2 = 0) :
    forBody i s = (Signal.cont, i, s)
    ∧ forPass forBody i s = Pass.next (i + 1) s
    ∧ ∀ fuel vs, forLoop forBody (fuel + 1) i s vs
        = forLoop forBody fuel (i + 1) s (vs ++ [⟨i, Signal.cont, s⟩]) := by
  have hb := forBody_even s i h0 hev
  have hs : forStep i = i + 1 :=
    wrap32_eq_self _ (by unfold INT_MIN; omega) (by unfold INT_MAX; omega)
  have hc : forCond i = true := by simp [forCond, h10]
  have hp : forPass forBody i s = Pass.next (i + 1) s := by
    simp [forPass, hc, hb, hs]
  refine ⟨hb, hp, ?_⟩
  intro fuel vs
  rw [forLoop, hp, hb]

theorem continue_runs_step_witness :
    (0 : Int) ≤ 4 ∧ (4 : Int) < 10 ∧ (4 : Int) % 2 = 0
    ∧ forBody 4 ⟨4, 5, none⟩ = (Signal.cont, 4, ⟨4, 5, none⟩)
    ∧ forPass forBody 4 ⟨4, 5, none⟩ = Pass.next (4 + 1) ⟨4, 5, none⟩
    ∧ ∀ fuel vs, forLoop forBody (fuel + 1) 4 ⟨4, 5, none⟩ vs
        = forLoop forBody fuel (4 + 1) ⟨4, 5, none⟩ (vs ++ [⟨4, Signal.cont, ⟨4, 5, none⟩⟩]) :=
  ⟨by decide, by decide, by decide,
    continue_runs_step ⟨4, 5, none⟩ 4 (by decide) (by decide) (by decide)⟩

/-! ## The pipeline on the fixture -/

/-- C7: the modelled pipeline succeeds on the fixture. Lexing the text of
`src/basic_example.c`, parsing the tokens, analysing the tree and generating code
each return a result, so none of `LexError`, `ParseError`,
`DuplicateDeclarationError`, `UndeclaredError`, `TypeError` and `ControlFlowError`
is raised; the tree holds the functions `soma` and `main`, and the assembly text,
which is also what `compile` returns, is not empty. -/
theorem pipeline_succeeds_on_fixture :
    ∃ toks ast annotated asm,
      lex fixtureSource = .ok toks
      ∧ parse toks = .ok ast
      ∧ analyze ast = .ok annotated
      ∧ generate annotated = .ok asm
      ∧ compile fixtureSource = .ok asm
      ∧ ast.functions.map FunctionDecl.name = ["soma", "main"]
      ∧ asm ≠ "" := by
  have h : (match lex fixtureSource with
      | .error _ => false
      | .ok toks =>
        match parse toks with
        | .error _ => false
        | .ok ast =>
          match analyze ast with
          | .error _ => false
          | .ok annotated =>
            match generate annotated with
            | .error _ => false
            | .ok asm =>
              decide (ast.functions.map FunctionDecl.name = ["soma", "main"])
                && decide (asm ≠ "")) = true := by
    decide!
  cases hl : lex fixtureSource with
  | error e => rw [hl] at h; cases h
  | ok toks =>
    rw [hl] at h
    cases hp : parse toks with
    | error e => simp only [hp] at h; cases h
    | ok ast =>
      simp only [hp] at h
      cases ha : analyze ast with
      | error e => simp only [ha] at h; cases h
      | ok annotated =>
        simp only [ha] at h
        cases hg : generate annotated with
        | error e => simp only [hg] at h; cases h
        | ok asm =>
          simp only [hg, Bool.and_eq_true, decide_eq_true_eq] at h
          refine ⟨toks, ast, annotated, asm, rfl, hp, ha, hg, ?_, h.1, h.2⟩
          simp only [compile, bind, Except.bind, hl, hp, ha, hg]

/-! ## The run of `main` -/

/-- C8: `main` returns 0. With fuel for the 22 evaluations of `a < 30`, the `for`
loop leaves `a = 9`, the `while` loop raises `a` to 30, the condition
`a > b && b < 10` holds for `a = 30`, `b = 5`, so `c = soma(30, 5) = 35`, the switch
on 35 starts at `default` and sets `c` to 0, and `return c` returns 0. -/
theorem main_returns_zero (fuel : Nat) (hfuel : 22 ≤ fuel) :
    (∃ f, forStmt forBody fuel initState = .ok f ∧ f.st = ⟨9, 5, none⟩)
    ∧ (∃ w, whileStmt fuel ⟨9, 5, none⟩ = .ok w ∧ w.st = ⟨30, 5, none⟩)
    ∧ ifCond ⟨30, 5, none⟩ = true
    ∧ soma 30 5 = 35
    ∧ ifElse ⟨30, 5, none⟩ = ⟨30, 5, some 35⟩
    ∧ (selectArms 35 switchArms).map Arm.label = [none]
    ∧ switchStmt ⟨30, 5, some 35⟩ = .ok ⟨30, 5, some 0⟩
    ∧ readC ⟨30, 5, some 0⟩ = .ok 0
    ∧ main fuel = .ok 0 := by
  obtain ⟨k, rfl⟩ : ∃ k, fuel = 22 + k := ⟨fuel - 22, by omega⟩
  have hfor : forStmt forBody (22 + k) initState = .ok ⟨7, ⟨9, 5, none⟩, true,
      [⟨0, Signal.cont, ⟨0, 5, none⟩⟩, ⟨1, Signal.normal, ⟨1, 5, none⟩⟩,
       ⟨2, Signal.cont, ⟨1, 5, none⟩⟩, ⟨3, Signal.normal, ⟨4, 5, none⟩⟩,
       ⟨4, Signal.cont, ⟨4, 5, none⟩⟩, ⟨5, Signal.normal, ⟨9, 5, none⟩⟩,
       ⟨6, Signal.cont, ⟨9, 5, none⟩⟩, ⟨7, Signal.brk, ⟨9, 5, none⟩⟩]⟩ :=
    forLoop_fuel_mono forBody k 22 0 initState [] _ (by decide)
  have hwhile : whileStmt (22 + k) ⟨9, 5, none⟩ = .ok ⟨⟨30, 5, none⟩, 21⟩ :=
    whileLoop_fuel_mono whileCond whileBody k 22 ⟨9, 5, none⟩ 0 _ (by decide)
  refine ⟨⟨_, hfor, rfl⟩, ⟨_, hwhile, rfl⟩, by decide, by decide, by decide, by decide,
    by decide, by decide, ?_⟩
  unfold main mainWith
  rw [hfor]
  simp only
  rw [hwhile]
  decide

theorem main_returns_zero_witness :
    (22 : Nat) ≤ 22
    ∧ (∃ f, forStmt forBody 22 initState = .ok f ∧ f.st = ⟨9, 5, none⟩)
    ∧ (∃ w, whileStmt 22 ⟨9, 5, none⟩ = .ok w ∧ w.st = ⟨30, 5, none⟩)
    ∧ ifCond ⟨30, 5, none⟩ = true
    ∧ soma 30 5 = 35
    ∧ ifElse ⟨30, 5, none⟩ = ⟨30, 5, some 35⟩
    ∧ (selectArms 35 switchArms).map Arm.label = [none]
    ∧ switchStmt ⟨30, 5, some 35⟩ = .ok ⟨30, 5, some 0⟩
    ∧ readC ⟨30, 5, some 0⟩ = .ok 0
    ∧ main 22 = .ok 0 :=
  ⟨le_refl 22, main_returns_zero 22 (le_refl 22)⟩

/-! ## The `for` loop of `main` -/

/-- C9: the `for` loop of `main` ends through its `break`. Started with `a = 0`
and given fuel for 8 passes, the body is entered exactly 8 times, with
`i = 0, ..., 7`; it ends normally, that is after the assignment `a = a + i`,
exactly for `i = 1, 3, 5`, by `continue` for `i = 0, 2, 4, 6` and by `break` for
`i = 7`; `a` is 0, 1, 1, 4, 4, 9, 9, 9 after the entries, so the last entry leaves
it as it was; the loop ends by `break` with `i = 7`, the step not run, and `a = 9`.
In every entry, the body changes the variables only when it ends normally, and
then by `a = a + i`. -/
theorem for_loop_ends_by_break (fuel : Nat) (hfuel : 8 ≤ fuel) :
    (∃ r, forStmt forBody fuel initState = .ok r
      ∧ r.byBreak = true
      ∧ r.visits.length = 8
      ∧ r.visits.map Visit.i = [0, 1, 2, 3, 4, 5, 6, 7]
      ∧ r.visits.map Visit.sig
          = [Signal.cont, Signal.normal, Signal.cont, Signal.normal, Signal.cont,
             Signal.normal, Signal.cont, Signal.brk]
      ∧ (r.visits.filter (fun v => decide (v.sig = Signal.normal))).map Visit.i = [1, 3, 5]
      ∧ r.visits.map (fun v => v.after.a) = [0, 1, 1, 4, 4, 9, 9, 9]
      ∧ r.i = 7
      ∧ r.st = ⟨9, 5, none⟩)
    ∧ (∀ i s, (forBody i s).2.2
        = if (forBody i s).1 = Signal.normal then { s with a := wrap32 (s.a + i) } else s) := by
  obtain ⟨k, rfl⟩ : ∃ k, fuel = 8 + k := ⟨fuel - 8, by omega⟩
  have hfor : forStmt forBody (8 + k) initState = .ok ⟨7, ⟨9, 5, none⟩, true,
      [⟨0, Signal.cont, ⟨0, 5, none⟩⟩, ⟨1, Signal.normal, ⟨1, 5, none⟩⟩,
       ⟨2, Signal.cont, ⟨1, 5, none⟩⟩, ⟨3, Signal.normal, ⟨4, 5, none⟩⟩,
       ⟨4, Signal.cont, ⟨4, 5, none⟩⟩, ⟨5, Signal.normal, ⟨9, 5, none⟩⟩,
       ⟨6, Signal.cont, ⟨9, 5, none⟩⟩, ⟨7, Signal.brk, ⟨9, 5, none⟩⟩]⟩ :=
    forLoop_fuel_mono forBody k 8 0 initState [] _ (by decide)
  refine ⟨⟨_, hfor, rfl, rfl, rfl, rfl, by decide, rfl, rfl, rfl⟩, ?_⟩
  intro i s
  unfold forBody
  split
  · simp
  · split <;> simp

theorem for_loop_ends_by_break_witness :
    (8 : Nat) ≤ 8
    ∧ (∃ r, forStmt forBody 8 initState = .ok r
      ∧ r.byBreak = true
      ∧ r.visits.length = 8
      ∧ r.visits.map Visit.i = [0, 1, 2, 3, 4, 5, 6, 7]
      ∧ r.visits.map Visit.sig
          = [Signal.cont, Signal.normal, Signal.cont, Signal.normal, Signal.cont,
             Signal.normal, Signal.cont, Signal.brk]
      ∧ (r.visits.filter (fun v => decide (v.sig = Signal.normal))).map Visit.i = [1, 3, 5]
      ∧ r.visits.map (fun v => v.after.a) = [0, 1, 1, 4, 4, 9, 9, 9]
      ∧ r.i = 7
      ∧ r.st = ⟨9, 5, none⟩)
    ∧ (∀ i s, (forBody i s).2.2
        = if (forBody i s).1 = Signal.normal then { s with a := wrap32 (s.a + i) } else s) :=
  ⟨le_refl 8, for_loop_ends_by_break 8 (le_refl 8)⟩

/-! ## The `while` loop of `main` -/

/-- C10: the loop `while (a < 30) { a = a + 1; }` as a function of `a` on entry.
For all variables with `a` not below `-2^31` (in particular every 32-bit `a`) and
fuel for the evaluations of the condition, the loop ends, its body has run exactly
`max(0, 30 - a)` times, and it leaves `a = max(a, 30)` with `b` and `c` unchanged;
from the variables of `main`, `a = 9`, the body runs 21 times and leaves `a = 30`. -/
theorem while_loop_spec (s : MainState) (fuel : Nat) (hlo : INT_MIN ≤ s.a)
    (hfuel : (30 - s.a).toNat < fuel) :
    (∃ r, whileStmt fuel s = .ok r
      ∧ (r.runs : Int) = max 0 (30 - s.a)
      ∧ r.st.a = max s.a 30
      ∧ r.st.b = s.b
      ∧ r.st.c = s.c)
    ∧ whileStmt 22 ⟨9, 5, none⟩ = .ok ⟨⟨30, 5, none⟩, 21⟩ := by
  refine ⟨⟨_, whileLoop_main (30 - s.a).toNat s 0 fuel hlo rfl hfuel, ?_, rfl, rfl, rfl⟩,
    by decide⟩
  simp only [Nat.zero_add]
  rw [Int.toNat_eq_max, max_comm]

theorem while_loop_spec_witness :
    INT_MIN ≤ (⟨-5, 5, none⟩ : MainState).a
    ∧ (30 - (⟨-5, 5, none⟩ : MainState).a).toNat < 36
    ∧ (∃ r, whileStmt 36 ⟨-5, 5, none⟩ = .ok r
      ∧ (r.runs : Int) = max 0 (30 - (⟨-5, 5, none⟩ : MainState).a)
      ∧ r.st.a = max (⟨-5, 5, none⟩ : MainState).a 30
      ∧ r.st.b = (⟨-5, 5, none⟩ : MainState).b
      ∧ r.st.c = (⟨-5, 5, none⟩ : MainState).c)
    ∧ whileStmt 22 ⟨9, 5, none⟩ = .ok ⟨⟨30, 5, none⟩, 21⟩ :=
  ⟨by decide, by decide,
    while_loop_spec ⟨-5, 5, none⟩ 36 (by decide) (by decide)⟩

/-! ## The `if`/`else` of `main` -/

/-- C11: the `if`/`else` of `main` as a function of `a` and `b`. For all variables
for which `a + b` and `a - b` are in the 32-bit range, the statement leaves
`c = a + b`, the result of `soma(a, b)`, when `a > b` and `b < 10`, and `c = a - b`
otherwise, with `a` and `b` as they were; whenever `a <= b` the condition is false
and the `else` branch is taken, whatever `b < 10` is; and the short-circuit
condition has the value of the condition with both operands evaluated, so that the
statement takes the same branch under both readings. -/
theorem if_else_spec (s : MainState)
    (hadd : INT_MIN ≤ s.a + s.b ∧ s.a + s.b ≤ INT_MAX)
    (hsub : INT_MIN ≤ s.a - s.b ∧ s.a - s.b ≤ INT_MAX) :
    ifElse s = { s with c := some (if s.a > s.b ∧ s.b < 10 then s.a + s.b else s.a - s.b) }
    ∧ soma s.a s.b = s.a + s.b
    ∧ (if s.a ≤ s.b then ifCond s = false ∧ (ifElse s).c = some (s.a - s.b)
        else ifCond s = decide (s.b < 10))
    ∧ ifCond s = ifCondBoth s
    ∧ ifElse s = (if ifCondBoth s = true then { s with c := some (soma s.a s.b) }
        else { s with c := some (wrap32 (s.a - s.b)) }) := by
  have hsoma : soma s.a s.b = s.a + s.b := wrap32_eq_self _ hadd.1 hadd.2
  have hw : wrap32 (s.a - s.b) = s.a - s.b := wrap32_eq_self _ hsub.1 hsub.2
  refine ⟨?_, hsoma, ?_, ifCond_eq_both s, ?_⟩
  · unfold ifElse ifCond
    by_cases h1 : s.a > s.b
    · by_cases h2 : s.b < 10
      · simp [h1, h2, hsoma]
      · simp [h1, h2, hw]
    · simp [h1, hw]
  · unfold ifElse ifCond
    by_cases h1 : s.a > s.b
    · have h1' : ¬ s.a ≤ s.b := by omega
      simp [h1, h1']
    · have h1' : s.a ≤ s.b := by omega
      simp [h1, h1', hw]
  · rw [← ifCond_eq_both]
    rfl

theorem if_else_spec_witness :
    (INT_MIN ≤ (30 : Int) + 5 ∧ (30 : Int) + 5 ≤ INT_MAX)
    ∧ (INT_MIN ≤ (30 : Int) - 5 ∧ (30 : Int) - 5 ≤ INT_MAX)
    ∧ ifElse ⟨30, 5, none⟩
        = { (⟨30, 5, none⟩ : MainState) with
            c := some (if (30 : Int) > 5 ∧ (5 : Int) < 10 then 30 + 5 else 30 - 5) }
    ∧ soma 30 5 = 30 + 5
    ∧ (if (30 : Int) ≤ 5
        then ifCond ⟨30, 5, none⟩ = false ∧ (ifElse ⟨30, 5, none⟩).c = some (30 - 5)
        else ifCond ⟨30, 5, none⟩ = decide ((5 : Int) < 10))
    ∧ ifCond ⟨30, 5, none⟩ = ifCondBoth ⟨30, 5, none⟩
    ∧ ifElse ⟨30, 5, none⟩
        = (if ifCondBoth ⟨30, 5, none⟩ = true
            then { (⟨30, 5, none⟩ : MainState) with c := some (soma 30 5) }
            else { (⟨30, 5, none⟩ : MainState) with c := some (wrap32 (30 - 5)) }) :=
  ⟨by decide, by decide, if_else_spec ⟨30, 5, none⟩ (by decide) (by decide)⟩

/-! ## Termination of `main` -/

/-- C12: `main` terminates. The loops of `main` are total functions by recursion
on the measures `10 - i` and `30 - a` (`forLoopTotal`, `whileLoopTotal`), and
`mainTotal`, built on them without fuel, returns 0; with fuel for the 22
evaluations of `a < 30` the embedding with fuel returns the same. Every pass of the
`for` loop that does not break, whether its body ends normally or by `continue`,
runs the step and decreases `10 - i`, which is positive before the pass; every
execution of the body of the `while` loop decreases `30 - a`, which is positive
before it. -/
theorem main_terminates (fuel : Nat) (hfuel : 22 ≤ fuel) :
    main fuel = mainTotal
    ∧ mainTotal = .ok 0
    ∧ forLoopTotal 0 initState = (7, ⟨9, 5, none⟩, true)
    ∧ whileLoopTotal ⟨9, 5, none⟩ = ⟨30, 5, none⟩
    ∧ (∀ i s, if forCond i = true ∧ (forBody i s).1 ≠ Signal.brk
        then forPass forBody i s = Pass.next (forStep i) (forBody i s).2.2
          ∧ 10 - forStep i < 10 - i ∧ 0 < 10 - i
        else ∀ j t, forPass forBody i s ≠ Pass.next j t)
    ∧ (∀ s, if whileCond s = true
        then 30 - (whileBody s).2.a < 30 - s.a ∧ 0 < 30 - s.a
        else whileLoopTotal s = s) := by
  obtain ⟨k, rfl⟩ : ∃ k, fuel = 22 + k := ⟨fuel - 22, by omega⟩
  have hf8 : forLoop forBody 8 0 initState [] = .ok ⟨7, ⟨9, 5, none⟩, true,
      [⟨0, Signal.cont, ⟨0, 5, none⟩⟩, ⟨1, Signal.normal, ⟨1, 5, none⟩⟩,
       ⟨2, Signal.cont, ⟨1, 5, none⟩⟩, ⟨3, Signal.normal, ⟨4, 5, none⟩⟩,
       ⟨4, Signal.cont, ⟨4, 5, none⟩⟩, ⟨5, Signal.normal, ⟨9, 5, none⟩⟩,
       ⟨6, Signal.cont, ⟨9, 5, none⟩⟩, ⟨7, Signal.brk, ⟨9, 5, none⟩⟩]⟩ := by
    decide
  have hfor : forLoopTotal 0 initState = (7, ⟨9, 5, none⟩, true) :=
    forLoopTotal_eq 8 0 initState [] _ hf8
  have hwhile : whileLoopTotal ⟨9, 5, none⟩ = ⟨30, 5, none⟩ :=
    whileLoopTotal_eq 22 ⟨9, 5, none⟩ 0 ⟨⟨30, 5, none⟩, 21⟩ (by decide)
  have htotal : mainTotal = .ok 0 := by
    unfold mainTotal
    rw [hfor]
    simp only
    rw [hwhile]
    decide
  have hfor' := forLoop_fuel_mono forBody (14 + k) 8 0 initState [] _ hf8
  have e : 8 + (14 + k) = 22 + k := by omega
  rw [e] at hfor'
  have hwhile' : whileStmt (22 + k) ⟨9, 5, none⟩ = .ok ⟨⟨30, 5, none⟩, 21⟩ :=
    whileLoop_fuel_mono whileCond whileBody k 22 ⟨9, 5, none⟩ 0 _ (by decide)
  have hmain : main (22 + k) = .ok 0 := by
    unfold main mainWith forStmt
    rw [hfor']
    simp only
    rw [hwhile']
    decide
  refine ⟨hmain.trans htotal.symm, htotal, hfor, hwhile, ?_, ?_⟩
  · intro i s
    have hbi := forBody_keeps_i i s
    by_cases hc : forCond i = true
    · have hlt : i < 10 := by simpa [forCond] using hc
      rcases hb : forBody i s with ⟨sig, j, t⟩
      rw [hb] at hbi
      simp only at hbi
      subst hbi
      cases sig
      · simp [forPass, hc, hb, forStep_measure j hlt]
      · simp [forPass, hc, hb]
      · simp [forPass, hc, hb, forStep_measure j hlt]
    · simp [forPass, hc]
  · intro s
    by_cases hc : whileCond s = true
    · have hlt : s.a < 30 := by simpa [whileCond] using hc
      rw [if_pos hc]
      exact whileBody_measure s hlt
    · rw [if_neg hc, whileLoopTotal, dif_neg hc]

theorem main_terminates_witness :
    (22 : Nat) ≤ 22 ∧ main 22 = mainTotal ∧ mainTotal = .ok 0 :=
  ⟨le_refl 22, (main_terminates 22 (le_refl 22)).1, (main_terminates 22 (le_refl 22)).2.1⟩

/-! ## Arithmetic in `main` -/

/-- C13: `main` has no arithmetic error. With fuel for the 22 evaluations of
`a < 30`, the run of `main` with its record returns 0, as `main` does, and records
78 events: every value stored in `a`, `b`, `c` and `i` (and in the parameters of
`soma`) and every result of `+`, `-` and `%`, taken before the reduction to 32
bits, lies in `[0, 35]`, so inside the 32-bit signed range and unchanged by the
reduction; each of the 8 `%` operations has the divisor 2 and a dividend that is
not negative. -/
theorem main_no_arithmetic_error (fuel : Nat) (hfuel : 22 ≤ fuel) :
    (∃ log, mainTraced fuel = .ok (0, log)
      ∧ log.length = 78
      ∧ (∀ e ∈ log, 0 ≤ e.value ∧ e.value ≤ 35)
      ∧ (∀ e ∈ log, INT_MIN ≤ e.value ∧ e.value ≤ INT_MAX ∧ wrap32 e.value = e.value)
      ∧ (∀ l r res, Event.arith ArithOp.mod l r res ∈ log → r = 2 ∧ r ≠ 0 ∧ 0 ≤ l)
      ∧ (log.filter Event.isMod).length = 8)
    ∧ Except.map Prod.fst (mainTraced fuel) = main fuel
    ∧ main fuel = .ok 0 := by
  obtain ⟨k, rfl⟩ : ∃ k, fuel = 22 + k := ⟨fuel - 22, by omega⟩
  obtain ⟨log, hrun, hall, hlen, hmod, _⟩ := mainTraced_run
  have hrun' := mainTraced_fuel_mono k 22 _ hrun
  have hbound : ∀ e ∈ log, 0 ≤ e.value ∧ e.value ≤ 35 := by
    intro e he
    have h := List.all_eq_true.mp hall e he
    cases e with
    | arith op l r res =>
      simp only [Event.inOrder, Bool.and_eq_true, decide_eq_true_eq] at h
      exact ⟨h.1.1, h.1.2⟩
    | store var v vars =>
      simp only [Event.inOrder, Bool.and_eq_true, decide_eq_true_eq] at h
      exact ⟨h.1.1, h.1.2⟩
  have herase := mainTraced_erase (22 + k)
  refine ⟨⟨log, hrun', hlen, hbound, ?_, ?_, hmod⟩, herase, ?_⟩
  · intro e he
    have h := hbound e he
    have hlo : INT_MIN ≤ e.value := by unfold INT_MIN; omega
    have hhi : e.value ≤ INT_MAX := by unfold INT_MAX; omega
    exact ⟨hlo, hhi, wrap32_eq_self _ hlo hhi⟩
  · intro l r res he
    have h := List.all_eq_true.mp hall _ he
    simp only [Event.inOrder, Bool.and_eq_true, decide_eq_true_eq, if_true] at h
    exact ⟨h.2.1, by omega, h.2.2⟩
  · rw [← herase, hrun']
    rfl

theorem main_no_arithmetic_error_witness :
    (22 : Nat) ≤ 22
    ∧ (∃ log, mainTraced 22 = .ok (0, log)
      ∧ log.length = 78
      ∧ (∀ e ∈ log, 0 ≤ e.value ∧ e.value ≤ 35)
      ∧ (∀ e ∈ log, INT_MIN ≤ e.value ∧ e.value ≤ INT_MAX ∧ wrap32 e.value = e.value)
      ∧ (∀ l r res, Event.arith ArithOp.mod l r res ∈ log → r = 2 ∧ r ≠ 0 ∧ 0 ≤ l)
      ∧ (log.filter Event.isMod).length = 8)
    ∧ Except.map Prod.fst (mainTraced 22) = main 22
    ∧ main 22 = .ok 0 :=
  ⟨le_refl 22, main_no_arithmetic_error 22 (le_refl 22)⟩

/-! ## The variable `b` and the call of `soma` -/

/-- C14: `b` is constant in `main` and the call of `soma` passes by value. With
fuel for the 22 evaluations of `a < 30`, in the run of `main` with its record the
variables have `b = 5` after every store, and the one store to `b` is its
initialisation. No statement of `main` changes `b`: not the body of the `for` loop,
the body of the `while` loop, the `if`/`else` or the switch. The call
`c = soma(a, b)` stores the arguments in the parameters of `soma` and leaves the
variables of `main` as they were; the assignment of its result changes `c` only. -/
theorem b_constant_and_call_by_value (fuel : Nat) (hfuel : 22 ≤ fuel) :
    (∃ log, mainTraced fuel = .ok (0, log)
      ∧ (∀ var v vars, Event.store var v vars ∈ log → vars.b = 5)
      ∧ log.filter (Event.isStoreTo Var.b) = [Event.store Var.b 5 initState])
    ∧ initState.b = 5
    ∧ (∀ i s, (forBody i s).2.2.b = s.b)
    ∧ (∀ s, (whileBody s).2.b = s.b)
    ∧ (∀ s, (ifElse s).a = s.a ∧ (ifElse s).b = s.b)
    ∧ (∀ a b c, ∃ c', switchStmt ⟨a, b, some c⟩ = .ok ⟨a, b, some c'⟩)
    ∧ (∀ x y t, (somaT x y t).1 = soma x y ∧ (somaT x y t).2.st = t.st)
    ∧ (∀ s, if ifCond s = true then ifElse s = { s with c := some (soma s.a s.b) }
        else ifElse s = { s with c := some (wrap32 (s.a - s.b)) })
    ∧ ifCond ⟨30, 5, none⟩ = true
    ∧ ifElse ⟨30, 5, none⟩ = ⟨30, 5, some (soma 30 5)⟩ := by
  obtain ⟨k, rfl⟩ : ∃ k, fuel = 22 + k := ⟨fuel - 22, by omega⟩
  obtain ⟨log, hrun, hall, _, _, hb⟩ := mainTraced_run
  have hrun' := mainTraced_fuel_mono k 22 _ hrun
  refine ⟨⟨log, hrun', ?_, hb⟩, rfl, ?_, ?_, ?_, ?_, ?_, ?_, by decide, by decide⟩
  · intro var v vars he
    have h := List.all_eq_true.mp hall _ he
    simp only [Event.inOrder, Bool.and_eq_true, decide_eq_true_eq] at h
    exact h.2
  · intro i s
    unfold forBody
    split
    · rfl
    · split <;> rfl
  · intro s
    rfl
  · intro s
    unfold ifElse
    split <;> exact ⟨rfl, rfl⟩
  · intro a b c
    exact ⟨_, switchWith_some SwitchMode.fallThrough a b c⟩
  · intro x y t
    exact ⟨rfl, rfl⟩
  · intro s
    unfold ifElse
    split <;> rfl

theorem b_constant_and_call_by_value_witness :
    (22 : Nat) ≤ 22
    ∧ (∃ log, mainTraced 22 = .ok (0, log)
      ∧ (∀ var v vars, Event.store var v vars ∈ log → vars.b = 5)
      ∧ log.filter (Event.isStoreTo Var.b) = [Event.store Var.b 5 initState]) :=
  ⟨le_refl 22, (b_constant_and_call_by_value 22 (le_refl 22)).1⟩

end Cmm
